import Mathlib

/-!
Verification of the emote-extraction pipeline of `bplib/extract.py` (the
`bpm` repository) against its natural-language specification.

The development shallowly embeds the pipeline:

* `_parse_emote_selector` — the selector classifier.  The Python function
  matches the anchored regular expression
  `a\s*(:[a-zA-Z\-()]+)?\[href.?="(/[\w:!]+)"\](:[a-zA-Z\-()]+)?$`.
  The match is embedded as a deterministic matcher over `List Char`
  (`matchEmoteSelector`): every quantifier in the regex is bounded by a
  character class that is disjoint from the literal that follows it, so
  greedy matching with backtracking is equivalent to maximal-munch, with
  the single exception of `.?` in `href.?="`, which needs the two-token
  lookahead implemented by `matchOp`.
* `filter_ponyscript_ignores` — the ignore-region filter.  Python mutates
  a per-rule `ignore` flag and prints warnings; the embedding returns the
  list of flags (in rule order) and the list of warned selectors.  The
  Python `set`s of seen selectors are modelled as lists used only through
  membership.
* `extract_raw_emotes`, `build_emote_map`, `collapse_specials_properties`,
  `classify_emotes`, `build_spritesheet_map`, `_convert_emote`,
  `_verify_spritesheet` — Python dicts (which preserve insertion order and
  have unique keys) are modelled as association lists; dict assignment is
  `dictInsert`, `dict.update` is `dictUpdate`, `dict.pop` is `dictPop`.
  All printed diagnostics are returned as explicit lists.
* The external CSS value utilities `bplib.css.as_url` / `as_size` /
  `as_position` are out of scope per the spec (external collaborators) and
  are passed in as a `CssUtils` parameter.
-/

/-! ## Character classes of the selector regex -/

/-- The ASCII fragment of Python's `\s` (which is Unicode for str patterns):
space, tab, newline, carriage return, vertical tab, form feed, and the file,
group, record and unit separators 0x1C-0x1F (whitespace per Python).  The
matcher built from this class agrees with the source exactly on ASCII
selectors; the ASCII hypothesis of `claim_C1_amended` marks that boundary. -/
def isSpaceChar (c : Char) : Bool :=
  c = ' ' || c = '\t' || c = '\n' || c = '\r' || c = '\x0b' || c = '\x0c' ||
    c = '\x1c' || c = '\x1d' || c = '\x1e' || c = '\x1f'

/-- The regex class `[a-zA-Z\-()]` used for pseudo-class bodies. -/
def isPcChar (c : Char) : Bool :=
  ('a' ≤ c && c ≤ 'z') || ('A' ≤ c && c ≤ 'Z') || c = '-' || c = '(' || c = ')'

/-- The ASCII fragment of Python's `\w` (which is Unicode for str patterns):
letters, digits and underscore.  Same fidelity boundary as `isSpaceChar`. -/
def isWordChar (c : Char) : Bool :=
  ('a' ≤ c && c ≤ 'z') || ('A' ≤ c && c ≤ 'Z') || ('0' ≤ c && c ≤ '9') || c = '_'

/-- The regex class `[\w:!]` used for emote-name bodies. -/
def isPathChar (c : Char) : Bool :=
  isWordChar c || c = ':' || c = '!'

/-! ## The deterministic matcher for the selector regex -/

/-- Match a literal prefix, returning the rest of the input. -/
def dropLit : List Char → List Char → Option (List Char)
  | [], cs => some cs
  | _ :: _, [] => none
  | l :: ls, c :: cs => if c = l then dropLit ls cs else none

/-- Match the optional group `(:[a-zA-Z\-()]+)?`.  Greedy matching is
maximal-munch here because the following literal `[` is not in the class. -/
def matchPc (cs : List Char) : Option (List Char) × List Char :=
  match cs with
  | ':' :: r =>
    let body := r.takeWhile isPcChar
    if body.isEmpty then (none, cs) else (some (':' :: body), r.dropWhile isPcChar)
  | _ => (none, cs)

/-- Match `.?="` (the forgiving attribute comparator).  The greedy `.?`
first tries to consume one (non-newline) character, requiring `="` after
it, and otherwise falls back to matching `="` directly. -/
def matchOp (cs : List Char) : Option (List Char) :=
  match cs with
  | c1 :: c2 :: c3 :: r =>
    if c2 = '=' && c3 = '"' && !(c1 = '\n') then some r
    else if c1 = '=' && c2 = '"' then some (c3 :: r)
    else none
  | [c1, c2] => if c1 = '=' && c2 = '"' then some [] else none
  | _ => none

/-- Match the capture group `(/[\w:!]+)`; the following literal `"` is not
in the class, so maximal-munch is faithful. -/
def matchPath (cs : List Char) : Option (List Char × List Char) :=
  match cs with
  | '/' :: r =>
    let body := r.takeWhile isPathChar
    if body.isEmpty then none else some ('/' :: body, r.dropWhile isPathChar)
  | _ => none

/-- Match the final `(:[a-zA-Z\-()]+)?$`.  Python's `$` (without
`re.MULTILINE`) matches at the end of the input and also just before one
trailing newline, so after the optional pseudo-class either nothing or a
single final `'\n'` may remain. -/
def matchEndPc (cs : List Char) : Option (Option (List Char)) :=
  match cs with
  | [] => some none
  | ['\n'] => some none
  | ':' :: r =>
    let body := r.takeWhile isPcChar
    if body.isEmpty then none
    else
      match r.dropWhile isPcChar with
      | [] => some (some (':' :: body))
      | ['\n'] => some (some (':' :: body))
      | _ => none
  | _ => none

/-- The anchored regex of `_parse_emote_selector`:
`a\s*(:[a-zA-Z\-()]+)?\[href.?="(/[\w:!]+)"\](:[a-zA-Z\-()]+)?$`.
Returns the three capture groups `(pc1, emote_name, pc2)` on success. -/
def matchEmoteSelector (cs : List Char) :
    Option (Option (List Char) × List Char × Option (List Char)) :=
  match cs with
  | 'a' :: rest =>
    let pr := matchPc (rest.dropWhile isSpaceChar)
    (dropLit ['[', 'h', 'r', 'e', 'f'] pr.2).bind fun r2 =>
    (matchOp r2).bind fun r3 =>
    (matchPath r3).bind fun nmr =>
    (dropLit ['"', ']'] nmr.2).bind fun r5 =>
    (matchEndPc r5).map fun pc2 => (pr.1, nmr.1, pc2)
  | _ => none

/-! ## The selector classifier -/

/-- The diagnostics `_parse_emote_selector` can print. -/
inductive ParseWarning where
  /-- "Selector %r has multiple psuedo classes" -/
  | multiplePseudo (selector : String)
  /-- "Unknown psuedo-class on %r" -/
  | unknownPseudo (selector : String)
deriving DecidableEq

/-- `_parse_emote_selector(selector)` from `bplib/extract.py`: returns the
`(emote_name, suffix)` pair (or `none` when the selector is not an emote
selector) together with the warnings it prints. -/
def _parse_emote_selector (selector : String) :
    Option (String × Option String) × List ParseWarning :=
  match matchEmoteSelector selector.toList with
  | none => (none, [])
  | some (pc1, nameChars, pc2) =>
    let w1 : List ParseWarning :=
      if pc1.isSome && pc2.isSome then [.multiplePseudo selector] else []
    let emote_name := String.mk nameChars
    match pc1.orElse fun _ => pc2 with
    | none => (some (emote_name, none), w1)
    | some pc =>
      let pcs := String.mk pc
      if pcs = ":hover" ∨ pcs = ":active" then (some (emote_name, some pcs), w1)
      else if pcs = ":nth-of-type(n)" then (some (emote_name, none), w1)
      else (some (emote_name, some pcs), w1 ++ [.unknownPseudo selector])

/-! ## Declarative grammar of emote selectors -/

/-- The characters contributed by an optional capture group. -/
def pcOptChars : Option (List Char) → List Char
  | none => []
  | some l => l

/-- Shape of a pseudo-class token `:[a-zA-Z\-()]+`. -/
def PseudoShape (pc : List Char) : Prop :=
  ∃ body, pc = ':' :: body ∧ body ≠ [] ∧ ∀ c ∈ body, isPcChar c = true

/-- Shape of an emote path `/[\w:!]+`. -/
def PathShape (nm : List Char) : Prop :=
  ∃ body, nm = '/' :: body ∧ body ≠ [] ∧ ∀ c ∈ body, isPathChar c = true

/-- Shape of an optional capture group. -/
def OptShape (P : List Char → Prop) : Option (List Char) → Prop
  | none => True
  | some l => P l

/-- Declarative reading of the selector grammar: the string decomposes as
`a`, whitespace, an optional leading pseudo-class, `[href`, an optional
single comparison character, `="`, the emote path, `"]`, an optional
trailing pseudo-class, and — because Python's `$` also matches just before a
trailing newline — an optional final newline. -/
def SelectorDecomp (s : List Char) (pc1 : Option (List Char)) (nm : List Char)
    (pc2 : Option (List Char)) : Prop :=
  ∃ ws op nl,
    s = 'a' :: (ws ++ pcOptChars pc1 ++ ['[', 'h', 'r', 'e', 'f'] ++ op ++
        ['=', '"'] ++ nm ++ ['"', ']'] ++ pcOptChars pc2 ++ nl) ∧
    (∀ c ∈ ws, isSpaceChar c = true) ∧
    OptShape PseudoShape pc1 ∧ PathShape nm ∧ OptShape PseudoShape pc2 ∧
    (op = [] ∨ ∃ c, op = [c] ∧ c ≠ '\n') ∧
    (nl = [] ∨ nl = ['\n'])

/-- The grammar exactly as claim C1 states it: at most one pseudo-class. -/
def ClaimC1Grammar (s : String) : Prop :=
  ∃ pc1 nm pc2, SelectorDecomp s.toList pc1 nm pc2 ∧ (pc1 = none ∨ pc2 = none)

/-! ## Association-list model of Python dicts

Python dicts preserve insertion order and have unique keys.  They are
modelled as association lists; `alookup` is `d[k]`-as-query, `dictInsert`
is `d[k] = v` (replace in place, else append), `dictUpdate` is
`d.update(other)`, `dictPop` is `d.pop(k)` (with failure as `none`). -/

/-- First-match association lookup (`k in d` / `d[k]`). -/
def alookup {α β : Type} [DecidableEq α] (k : α) : List (α × β) → Option β
  | [] => none
  | p :: rest => if p.1 = k then some p.2 else alookup k rest

/-- Python `d[k] = v`: replace the value of an existing key in place,
otherwise append the new binding at the end. -/
def dictInsert {α β : Type} [DecidableEq α] : List (α × β) → α → β → List (α × β)
  | [], k, v => [(k, v)]
  | p :: rest, k, v => if p.1 = k then (k, v) :: rest else p :: dictInsert rest k v

/-- Python `d.update(other)`: insert every binding of `other` in order. -/
def dictUpdate {α β : Type} [DecidableEq α] (base upd : List (α × β)) : List (α × β) :=
  upd.foldl (fun m p => dictInsert m p.1 p.2) base

/-- Python `d.pop(k)`: the value and the dict without that key. -/
def dictPop {α β : Type} [DecidableEq α] (m : List (α × β)) (k : α) :
    Option (β × List (α × β)) :=
  match alookup k m with
  | none => none
  | some v => some (v, m.filter fun p => decide (p.1 ≠ k))

/-! ## Data model (bplib.css / bplib.emote / bplib.file)

Modelled from the spec: the classes `CssRule` (bplib.css), `PartialEmote`,
`CustomEmote`, `NormalEmote` (bplib.emote) and `Spritesheet` (bplib.file)
are repository code that is not under `src/`; their shapes are taken from
the spec's section 3 data model. -/

/-- Modelled from the spec: a CSS rule — an ordered list of selector
strings plus an ordered property map (`bplib.css.CssRule`; the mutable
`ignore` flag is returned separately by the filter embedding). -/
structure CssRule where
  selectors : List String
  properties : List (String × String)
deriving DecidableEq

/-- Modelled from the spec: one contributing fragment for an emote variant
(`bplib.emote.PartialEmote`). -/
structure PartialEmote where
  name : String
  suffix : Option String
  css : List (String × String)
deriving DecidableEq

/-- Modelled from the spec: a freeform-CSS emote (`bplib.emote.CustomEmote`). -/
structure CustomEmote where
  name : String
  suffix : Option String
  css : List (String × String)
deriving DecidableEq

/-- Modelled from the spec: a spritesheet-backed emote
(`bplib.emote.NormalEmote`): residual css, image url, size and optional
offset.  Numeric CSS values are whatever the external `as_size` /
`as_position` utilities produce; they are modelled as `Int`. -/
structure NormalEmote where
  name : String
  suffix : Option String
  css : List (String × String)
  image_url : String
  size : Int × Int
  offset : Option (Int × Int)
deriving DecidableEq

/-- The `(name, suffix)` key of an emote variant. -/
abbrev EmoteKey := String × Option String

/-- Modelled from the spec: one spritesheet (`bplib.file.Spritesheet`):
its image url and its emotes keyed by `(name, suffix)`. -/
structure Spritesheet where
  image_url : String
  emotes : List (EmoteKey × NormalEmote)
deriving DecidableEq

/-! ## filter_ponyscript_ignores -/

/-- The state threaded by `filter_ponyscript_ignores`: the two seen-sets
(modelled as lists used through membership only) and the `ignoring` flag. -/
structure FilterState where
  visible : List String
  hidden : List String
  ignoring : Bool

/-- One loop iteration of `filter_ponyscript_ignores`: returns the new
state, the `ignore` flag assigned to this rule, and the selectors warned
about (one warning per selector occurrence found in the opposite set). -/
def filterStep (st : FilterState) (rule : CssRule) : FilterState × Bool × List String :=
  let ignoring1 := if "START-PONYSCRIPT-IGNORE" ∈ rule.selectors then true else st.ignoring
  let refuseIn := if ignoring1 then st.visible else st.hidden
  let warns := rule.selectors.filter fun s => decide (s ∈ refuseIn)
  let visible1 := if ignoring1 then st.visible else rule.selectors ++ st.visible
  let hidden1 := if ignoring1 then rule.selectors ++ st.hidden else st.hidden
  let ignoring2 := if "END-PONYSCRIPT-IGNORE" ∈ rule.selectors then false else ignoring1
  (⟨visible1, hidden1, ignoring2⟩, ignoring1, warns)

/-- The loop of `filter_ponyscript_ignores`: final state, per-rule flags
(in rule order) and warned selectors (in print order). -/
def filterGo (st : FilterState) : List CssRule → FilterState × List Bool × List String
  | [] => (st, [], [])
  | r :: rest =>
    let s1 := filterStep st r
    let s2 := filterGo s1.1 rest
    (s2.1, s1.2.1 :: s2.2.1, s1.2.2 ++ s2.2.2)

/-- `filter_ponyscript_ignores(css_rules)` from `bplib/extract.py`: the
`ignore` flags it assigns (in rule order) and the selectors it warns about
as split across a PONYSCRIPT-IGNORE block (in print order). -/
def filter_ponyscript_ignores (css_rules : List CssRule) : List Bool × List String :=
  let r := filterGo ⟨[], [], false⟩ css_rules
  (r.2.1, r.2.2)

/-- The flags-only portion of the loop (the flags do not depend on the
seen-sets, only on `ignoring`). -/
def flagsGo (ig : Bool) : List CssRule → List Bool
  | [] => []
  | r :: rest =>
    let ig1 := if "START-PONYSCRIPT-IGNORE" ∈ r.selectors then true else ig
    let ig2 := if "END-PONYSCRIPT-IGNORE" ∈ r.selectors then false else ig1
    ig1 :: flagsGo ig2 rest

/-- The per-occurrence flag trace of a selector `s`: for each rule, its
assigned flag repeated once per occurrence of `s` among the rule's
selectors, starting from `ignoring = ig`. -/
def occFlagsGo (ig : Bool) (s : String) : List CssRule → List Bool
  | [] => []
  | r :: rest =>
    let ig1 := if "START-PONYSCRIPT-IGNORE" ∈ r.selectors then true else ig
    let ig2 := if "END-PONYSCRIPT-IGNORE" ∈ r.selectors then false else ig1
    List.replicate (r.selectors.count s) ig1 ++ occFlagsGo ig2 s rest

/-- The per-occurrence flag trace of a selector over a whole rule list. -/
def occFlags (rules : List CssRule) (s : String) : List Bool :=
  occFlagsGo false s rules

/-- Reference count of split warnings for one selector, from its
occurrence trace: an occurrence processed while ignoring warns iff the
selector was already seen visible (`seenF`), and vice versa (`seenT`). -/
def countSpec : List Bool → Bool → Bool → Nat
  | [], _, _ => 0
  | b :: rest, seenF, seenT =>
    if b then (if seenF then 1 else 0) + countSpec rest seenF true
    else (if seenT then 1 else 0) + countSpec rest true seenT

/-! ## extract_raw_emotes -/

/-- Modelled from the spec: `bplib.emote.combine_name_pair` (not under
`src/`) combines an emote name and suffix into the single string
identifier used for the explicit-extraction configuration set. -/
def combine_name_pair (name : String) (suffix : Option String) : String :=
  name ++ suffix.getD ""

/-- The `args` consumed by `extract_raw_emotes`: the configured set of
explicitly requested emote identifiers. -/
structure ExtractArgs where
  extract : List String

/-- `extract_raw_emotes(args, css_rules)` from `bplib/extract.py`, over
rules paired with the `ignore` flag set by the filter: the emitted
`PartialEmote`s, the parse warnings (printed for every selector of every
rule, ignored or not), and the NOTICE'd `(name, suffix)` pairs. -/
def extract_raw_emotes (args : ExtractArgs) :
    List (CssRule × Bool) → List PartialEmote × List ParseWarning × List EmoteKey
  | [] => ([], [], [])
  | (rule, ignore) :: rest =>
    let parsed := rule.selectors.map _parse_emote_selector
    let warns := (parsed.map Prod.snd).flatten
    let pairs := parsed.filterMap Prod.fst
    let notices := pairs.filter fun p => decide (combine_name_pair p.1 p.2 ∈ args.extract)
    let emits := pairs.filterMap fun p =>
      if combine_name_pair p.1 p.2 ∈ args.extract ∨ ¬ignore then
        some ⟨p.1, p.2, rule.properties⟩ else none
    let r := extract_raw_emotes args rest
    (emits ++ r.1, warns ++ r.2.1, notices ++ r.2.2)

/-! ## build_emote_map -/

/-- A "redefined property" warning printed by `build_emote_map`. -/
structure MergeWarning where
  key : EmoteKey
  property : String
  oldValue : String
  newValue : String
deriving DecidableEq

/-- The warnings printed when merging a new fragment's css into the
accumulated css of the same key: one per property already present with a
different value, in the new fragment's order. -/
def mergeWarnings (key : EmoteKey) (baseProps newProps : List (String × String)) :
    List MergeWarning :=
  newProps.filterMap fun pv =>
    match alookup pv.1 baseProps with
    | some old => if old ≠ pv.2 then some ⟨key, pv.1, old, pv.2⟩ else none
    | none => none

/-- Replace the value bound to a key (used for the in-place css mutation
of the stored emote). -/
def updateValue {α β : Type} [DecidableEq α] (m : List (α × β)) (k : α) (f : β → β) :
    List (α × β) :=
  m.map fun p => if p.1 = k then (p.1, f p.2) else p

/-- `build_emote_map(partial_emotes)` from `bplib/extract.py`: the merged
emote map keyed by `(name, suffix)` (in first-seen order) and the
redefinition warnings (in print order). -/
def build_emote_map (partial_emotes : List PartialEmote) :
    List (EmoteKey × PartialEmote) × List MergeWarning :=
  partial_emotes.foldl
    (fun acc raw =>
      let name_pair : EmoteKey := (raw.name, raw.suffix)
      match alookup name_pair acc.1 with
      | none => (acc.1 ++ [(name_pair, raw)], acc.2)
      | some base =>
        (updateValue acc.1 name_pair fun e => { e with css := dictUpdate e.css raw.css },
         acc.2 ++ mergeWarnings name_pair base.css raw.css))
    ([], [])

/-! ## collapse_specials_properties -/

/-- Python truthiness of the suffix (`if emote.suffix:`). -/
def suffixTruthy : Option String → Bool
  | none => false
  | some s => !(s = "")

/-- The per-emote step of `collapse_specials_properties`: a suffixed
variant whose base `(name, None)` exists gets `copy(base.css)` updated
with its own css. -/
def collapseOne (emotes : List (EmoteKey × PartialEmote)) (e : PartialEmote) :
    PartialEmote :=
  if suffixTruthy e.suffix then
    match alookup (e.name, none) emotes with
    | none => e
    | some base => { e with css := dictUpdate base.css e.css }
  else e

/-- `collapse_specials_properties(emotes)` from `bplib/extract.py`.  Base
emotes are never mutated by the loop, so mapping with lookups in the input
map is faithful to the in-place Python iteration. -/
def collapse_specials_properties (emotes : List (EmoteKey × PartialEmote)) :
    List (EmoteKey × PartialEmote) :=
  emotes.map fun p => (p.1, collapseOne emotes p.2)

/-! ## classify_emotes -/

/-- `all(k in emote.css for k in ("background-image", "width", "height"))`. -/
def hasNormalProps (e : PartialEmote) : Bool :=
  (alookup "background-image" e.css).isSome && (alookup "width" e.css).isSome &&
    (alookup "height" e.css).isSome

/-- `classify_emotes(emote_map)` from `bplib/extract.py`: the normal
(spritesheet) emotes and the custom emotes, both in input order. -/
def classify_emotes (emote_map : List (EmoteKey × PartialEmote)) :
    List (EmoteKey × PartialEmote) × List (EmoteKey × CustomEmote) :=
  (emote_map.filter fun p => hasNormalProps p.2,
   emote_map.filterMap fun p =>
     if hasNormalProps p.2 then none else some (p.1, ⟨p.2.name, p.2.suffix, p.2.css⟩))

/-! ## build_spritesheet_map -/

/-- The external CSS value utilities (`bplib.css.as_url` / `as_size` /
`as_position`), out of scope per the spec and passed in as parameters. -/
structure CssUtils where
  as_url : String → String
  as_size : String → Int
  as_position : String → Int → Int → Int × Int

/-- `_convert_emote(name_pair, image_url, raw_emote)` from
`bplib/extract.py` (after `background-image` has already been popped by
the caller): the `NormalEmote` and the extra-property warnings
`(name_pair, property, value)`.  `none` models the `KeyError` raised when
`width` or `height` is missing. -/
def _convert_emote (u : CssUtils) (name_pair : EmoteKey) (image_url : String)
    (raw_emote : PartialEmote) : Option (NormalEmote × List (EmoteKey × String × String)) :=
  let css0 := raw_emote.css.filter fun p =>
    decide (p.1 ≠ "display" ∧ p.1 ≠ "clear" ∧ p.1 ≠ "float")
  (dictPop css0 "width").bind fun wp =>
  (dictPop wp.2 "height").bind fun hp =>
  let width := u.as_size wp.1
  let height := u.as_size hp.1
  let or := match dictPop hp.2 "background-position" with
    | some bp => (some (u.as_position bp.1 width height), bp.2)
    | none => (none, hp.2)
  let css4 := or.2.filter fun p => decide (p.1 ≠ "background-repeat")
  let warns := css4.filterMap fun p =>
    if p.1 ≠ "margin-left" ∧ p.1 ≠ "margin-right" then some (name_pair, p.1, p.2) else none
  some (⟨name_pair.1, name_pair.2, css4, image_url, (width, height), or.1⟩, warns)

/-- Insert a converted emote into the sheet map (`spritesheets[image_url]`
is created on demand; `.emotes[name_pair] = ...` is a dict assignment). -/
def sheetInsert (sheets : List (String × Spritesheet)) (url : String) (k : EmoteKey)
    (e : NormalEmote) : List (String × Spritesheet) :=
  match alookup url sheets with
  | some _ => sheets.map fun p =>
      if p.1 = url then (p.1, ⟨p.2.image_url, dictInsert p.2.emotes k e⟩) else p
  | none => sheets ++ [(url, ⟨url, [(k, e)]⟩)]

/-- `_verify_spritesheet(image_url, ss)` from `bplib/extract.py`: every
emote lacking an offset is defaulted to `(0, 0)`; the error (sheet url and
the affected keys, in order) is reported iff more than one emote lacked a
position. -/
def _verify_spritesheet (image_url : String) (ss : Spritesheet) :
    Spritesheet × Option (String × List EmoteKey) :=
  let unpositioned := (ss.emotes.filter fun p => p.2.offset.isNone).map Prod.fst
  let emotes2 := ss.emotes.map fun p => (p.1, { p.2 with offset := some (p.2.offset.getD (0, 0)) })
  (⟨ss.image_url, emotes2⟩,
   if 1 < unpositioned.length then some (image_url, unpositioned) else none)

/-- `build_spritesheet_map(emotes)` from `bplib/extract.py`: the sheet map
keyed by resolved image url, the extra-property warnings, and the
multiple-unpositioned-emote errors.  `none` models the `KeyError` when a
supposedly-normal emote lacks `background-image`, `width` or `height`. -/
def build_spritesheet_map (u : CssUtils) (emotes : List (EmoteKey × PartialEmote)) :
    Option (List (String × Spritesheet) × List (EmoteKey × String × String) ×
      List (String × List EmoteKey)) :=
  (emotes.foldl
    (fun acc p => acc.bind fun sw =>
      (dictPop p.2.css "background-image").bind fun bg =>
      let image_url := u.as_url bg.1
      (_convert_emote u p.1 image_url ⟨p.2.name, p.2.suffix, bg.2⟩).map fun ew =>
      (sheetInsert sw.1 image_url p.1 ew.1, sw.2 ++ ew.2))
    (some ([], []))).map fun sw =>
    let verified := sw.1.map fun p => (p.1, _verify_spritesheet p.1 p.2)
    (verified.map fun p => (p.1, p.2.1), sw.2, verified.filterMap fun p => p.2.2)

/-! ## The full pipeline -/

/-- Everything the pipeline produces, including every printed diagnostic. -/
structure PipelineResult where
  filter_warnings : List String
  parse_warnings : List ParseWarning
  notices : List EmoteKey
  merge_warnings : List MergeWarning
  spritesheets : List (String × Spritesheet)
  custom_emotes : List (EmoteKey × CustomEmote)
  convert_warnings : List (EmoteKey × String × String)
  position_errors : List (String × List EmoteKey)
deriving DecidableEq

/-- The extraction pipeline in source order: ignore filtering, raw-emote
extraction, emote-map building, specials collapsing, classification and
spritesheet building. -/
def process_stylesheet (u : CssUtils) (args : ExtractArgs) (rules : List CssRule) :
    Option PipelineResult :=
  let fr := filter_ponyscript_ignores rules
  let er := extract_raw_emotes args (rules.zip fr.1)
  let br := build_emote_map er.1
  let collapsed := collapse_specials_properties br.1
  let cl := classify_emotes collapsed
  (build_spritesheet_map u cl.1).map fun bs =>
    ⟨fr.2, er.2.1, er.2.2, br.2, bs.1, cl.2, bs.2.1, bs.2.2⟩

/-! ## List helper lemmas -/

theorem takeWhile_mem_pred {α : Type} {p : α → Bool} :
    ∀ {l : List α} {c : α}, c ∈ l.takeWhile p → p c = true := by
  intro l
  induction l with
  | nil => intro c h; simp [List.takeWhile] at h
  | cons a t ih =>
    intro c h
    by_cases hpa : p a = true
    · rw [List.takeWhile_cons, if_pos hpa] at h
      rcases List.mem_cons.mp h with rfl | h
      · exact hpa
      · exact ih h
    · rw [List.takeWhile_cons, if_neg hpa] at h
      simp at h

theorem takeWhile_append_eq {α : Type} {p : α → Bool} :
    ∀ (l r : List α), (∀ c ∈ l, p c = true) → (∀ c, r.head? = some c → p c = false) →
      (l ++ r).takeWhile p = l := by
  intro l r hl hr
  induction l with
  | nil =>
    cases r with
    | nil => rfl
    | cons c t => simp [List.takeWhile_cons, hr c rfl]
  | cons a t ih =>
    have hpa : p a = true := hl a (List.mem_cons_self a t)
    simp only [List.cons_append, List.takeWhile_cons, hpa, if_pos]
    rw [ih fun c hc => hl c (List.mem_cons_of_mem a hc)]

theorem dropWhile_append_eq {α : Type} {p : α → Bool} :
    ∀ (l r : List α), (∀ c ∈ l, p c = true) → (∀ c, r.head? = some c → p c = false) →
      (l ++ r).dropWhile p = r := by
  intro l r hl hr
  induction l with
  | nil =>
    cases r with
    | nil => rfl
    | cons c t => simp [List.dropWhile_cons, hr c rfl]
  | cons a t ih =>
    have hpa : p a = true := hl a (List.mem_cons_self a t)
    simp only [List.cons_append, List.dropWhile_cons, hpa, if_pos]
    exact ih fun c hc => hl c (List.mem_cons_of_mem a hc)

theorem dropLit_sound : ∀ (lit cs r : List Char), dropLit lit cs = some r → cs = lit ++ r := by
  intro lit
  induction lit with
  | nil => intro cs r h; simp [dropLit] at h; simp [h]
  | cons l ls ih =>
    intro cs r h
    cases cs with
    | nil => simp [dropLit] at h
    | cons c t =>
      simp only [dropLit] at h
      split at h
      · next hc => subst hc; simp [ih t r h]
      · exact absurd h (by simp)

theorem dropLit_append : ∀ (lit r : List Char), dropLit lit (lit ++ r) = some r := by
  intro lit
  induction lit with
  | nil => intro r; rfl
  | cons l ls ih => intro r; simp [dropLit, ih]

/-! ## Stage lemmas for the matcher -/

theorem matchPc_none {cs r : List Char} (h : matchPc cs = (none, r)) : r = cs := by
  unfold matchPc at h
  split at h
  · dsimp only at h
    split at h
    · rw [Prod.mk.injEq] at h
      exact h.2.symm
    · rw [Prod.mk.injEq] at h
      simp at h
  · rw [Prod.mk.injEq] at h
    exact h.2.symm

theorem matchPc_some {cs pc r : List Char} (h : matchPc cs = (some pc, r)) :
    ∃ body, pc = ':' :: body ∧ body ≠ [] ∧ (∀ c ∈ body, isPcChar c = true) ∧
      cs = ':' :: (body ++ r) := by
  unfold matchPc at h
  split at h
  · next rest =>
    dsimp only at h
    split at h
    · rw [Prod.mk.injEq] at h
      simp at h
    · next hne =>
      rw [Prod.mk.injEq] at h
      obtain ⟨h1, h2⟩ := h
      have hpc := Option.some.inj h1
      refine ⟨rest.takeWhile isPcChar, hpc.symm, ?_, fun c hc => takeWhile_mem_pred hc, ?_⟩
      · intro hc
        rw [hc] at hne
        simp at hne
      · rw [← h2, List.takeWhile_append_dropWhile]
  · rw [Prod.mk.injEq] at h
    simp at h

theorem matchPc_of_shape {body r : List Char} (h1 : body ≠ [])
    (h2 : ∀ c ∈ body, isPcChar c = true) (h3 : ∀ c, r.head? = some c → isPcChar c = false) :
    matchPc (':' :: (body ++ r)) = (some (':' :: body), r) := by
  have ht := takeWhile_append_eq body r h2 h3
  have hd := dropWhile_append_eq body r h2 h3
  simp only [matchPc, ht, hd]
  simp [h1]

theorem matchPc_not_colon {cs : List Char} (h : ∀ c, cs.head? = some c → c ≠ ':') :
    matchPc cs = (none, cs) := by
  unfold matchPc
  split
  · exact absurd rfl (h ':' rfl)
  · rfl

theorem matchOp_sound {cs r : List Char} (h : matchOp cs = some r) :
    cs = '=' :: '"' :: r ∨ ∃ c, c ≠ '\n' ∧ cs = c :: '=' :: '"' :: r := by
  unfold matchOp at h
  split at h
  · next c1 c2 c3 t =>
    split at h
    · next hc =>
      obtain ⟨⟨h1, h2⟩, h3⟩ : (c2 = '=' ∧ c3 = '"') ∧ ¬c1 = '\n' := by simpa using hc
      have hr := Option.some.inj h
      right
      exact ⟨c1, h3, by rw [h1, h2, hr]⟩
    · split at h
      · next hc =>
        obtain ⟨h1, h2⟩ : c1 = '=' ∧ c2 = '"' := by simpa using hc
        have hr := Option.some.inj h
        left
        rw [h1, h2, hr]
      · simp at h
  · next c1 c2 =>
    split at h
    · next hc =>
      obtain ⟨h1, h2⟩ : c1 = '=' ∧ c2 = '"' := by simpa using hc
      have hr := Option.some.inj h
      left
      rw [h1, h2, ← hr]
    · simp at h
  · simp at h

theorem matchOp_empty_op (r : List Char) : matchOp ('=' :: '"' :: r) = some r := by
  cases r <;> simp [matchOp]

theorem matchOp_single_op {c : Char} (h : c ≠ '\n') (r : List Char) :
    matchOp (c :: '=' :: '"' :: r) = some r := by
  simp [matchOp, h]

theorem matchPath_sound {cs nm r : List Char} (h : matchPath cs = some (nm, r)) :
    PathShape nm ∧ cs = '/' :: (nm.tail ++ r) := by
  unfold matchPath at h
  split at h
  · next rest =>
    dsimp only at h
    split at h
    · simp at h
    · next hne =>
      have hp := Option.some.inj h
      rw [Prod.mk.injEq] at hp
      obtain ⟨h1, h2⟩ := hp
      constructor
      · refine ⟨rest.takeWhile isPathChar, h1.symm, ?_, fun c hc => takeWhile_mem_pred hc⟩
        intro hc
        rw [hc] at hne
        simp at hne
      · rw [← h1, ← h2]
        simp [List.takeWhile_append_dropWhile]
  · simp at h

theorem matchPath_of_shape {body r : List Char} (h1 : body ≠ [])
    (h2 : ∀ c ∈ body, isPathChar c = true)
    (h3 : ∀ c, r.head? = some c → isPathChar c = false) :
    matchPath ('/' :: (body ++ r)) = some ('/' :: body, r) := by
  have ht := takeWhile_append_eq body r h2 h3
  have hd := dropWhile_append_eq body r h2 h3
  simp only [matchPath, ht, hd]
  simp [h1]

theorem matchEndPc_sound {cs : List Char} {pc2 : Option (List Char)}
    (h : matchEndPc cs = some pc2) :
    ∃ nl, (nl = [] ∨ nl = ['\n']) ∧ cs = pcOptChars pc2 ++ nl ∧ OptShape PseudoShape pc2 := by
  unfold matchEndPc at h
  split at h
  · have := Option.some.inj h
    rw [← this]
    exact ⟨[], Or.inl rfl, rfl, trivial⟩
  · have := Option.some.inj h
    rw [← this]
    exact ⟨['\n'], Or.inr rfl, rfl, trivial⟩
  · next rest =>
    dsimp only at h
    split at h
    · simp at h
    · next hne =>
      have hsplit := List.takeWhile_append_dropWhile isPcChar rest
      have hshape : OptShape PseudoShape (some (':' :: rest.takeWhile isPcChar)) := by
        refine ⟨rest.takeWhile isPcChar, rfl, ?_, fun c hc => takeWhile_mem_pred hc⟩
        intro hc
        rw [hc] at hne
        simp at hne
      split at h
      · next hdrop =>
        have hp := Option.some.inj h
        rw [← hp]
        refine ⟨[], Or.inl rfl, ?_, hshape⟩
        rw [hdrop, List.append_nil] at hsplit
        simp [pcOptChars, hsplit]
      · next hdrop =>
        have hp := Option.some.inj h
        rw [← hp]
        refine ⟨['\n'], Or.inr rfl, ?_, hshape⟩
        rw [hdrop] at hsplit
        simp only [pcOptChars, List.cons_append]
        rw [hsplit]
      · simp at h
  · simp at h

theorem matchEndPc_of_shape {body nl : List Char} (h1 : body ≠ [])
    (h2 : ∀ c ∈ body, isPcChar c = true) (hnl : nl = [] ∨ nl = ['\n']) :
    matchEndPc (':' :: (body ++ nl)) = some (some (':' :: body)) := by
  have hw : ∀ c : Char, nl.head? = some c → isPcChar c = false := by
    rcases hnl with rfl | rfl
    · intro c hc
      simp at hc
    · intro c hc
      rw [← Option.some.inj hc]
      decide
  have ht := takeWhile_append_eq body nl h2 hw
  have hd := dropWhile_append_eq body nl h2 hw
  simp only [matchEndPc, ht, hd]
  rcases hnl with rfl | rfl
  · simp [h1]
  · simp [h1]

/-! ## Soundness and completeness of the matcher w.r.t. the grammar -/

theorem matchPc_chars {cs : List Char} {pc1 : Option (List Char)} {r1 : List Char}
    (hpc : matchPc cs = (pc1, r1)) : cs = pcOptChars pc1 ++ r1 := by
  cases pc1 with
  | none =>
    rw [← matchPc_none hpc]
    simp [pcOptChars]
  | some pc =>
    obtain ⟨body, hb, _, _, hcs⟩ := matchPc_some hpc
    rw [hcs, hb]
    simp [pcOptChars]

theorem matchPc_shape {cs : List Char} {pc1 : Option (List Char)} {r1 : List Char}
    (hpc : matchPc cs = (pc1, r1)) : OptShape PseudoShape pc1 := by
  cases pc1 with
  | none => exact trivial
  | some pc =>
    obtain ⟨body, hb, hbne, hbchars, _⟩ := matchPc_some hpc
    exact ⟨body, hb, hbne, hbchars⟩

theorem matchEmoteSelector_sound {s : List Char} {p1 : Option (List Char)} {nm : List Char}
    {p2 : Option (List Char)} (h : matchEmoteSelector s = some (p1, nm, p2)) :
    SelectorDecomp s p1 nm p2 := by
  unfold matchEmoteSelector at h
  split at h
  case h_2 => simp at h
  case h_1 rest =>
  dsimp only at h
  rcases hpc : matchPc (rest.dropWhile isSpaceChar) with ⟨pc1', r1⟩
  rw [hpc] at h
  dsimp only at h
  rcases h2 : dropLit ['[', 'h', 'r', 'e', 'f'] r1 with _ | r2
  · rw [h2] at h
    simp at h
  rw [h2] at h
  simp only [Option.some_bind] at h
  rcases h3 : matchOp r2 with _ | r3
  · rw [h3] at h
    simp at h
  rw [h3] at h
  simp only [Option.some_bind] at h
  rcases h4 : matchPath r3 with _ | ⟨nm', r4⟩
  · rw [h4] at h
    simp at h
  rw [h4] at h
  simp only [Option.some_bind] at h
  rcases h5 : dropLit ['"', ']'] r4 with _ | r5
  · rw [h5] at h
    simp at h
  rw [h5] at h
  simp only [Option.some_bind] at h
  rcases h6 : matchEndPc r5 with _ | pc2'
  · rw [h6] at h
    simp at h
  rw [h6] at h
  simp only [Option.map_some', Option.some.injEq, Prod.mk.injEq] at h
  obtain ⟨hA, hB, hC⟩ := h
  subst hA
  subst hB
  subst hC
  -- reconstruct the decomposition from the stage equations
  have hrest := (List.takeWhile_append_dropWhile isSpaceChar rest).symm
  have hws : ∀ c ∈ rest.takeWhile isSpaceChar, isSpaceChar c = true :=
    fun c hc => takeWhile_mem_pred hc
  obtain ⟨hpath, hr3⟩ := matchPath_sound h4
  obtain ⟨nl, hnl, hr5, hshape2⟩ := matchEndPc_sound h6
  have hr1 := dropLit_sound _ _ _ h2
  have hr4 := dropLit_sound _ _ _ h5
  obtain ⟨nbody, hnm, hnbne, hnbchars⟩ := hpath
  have hr3' : r3 = nm' ++ r4 := by
    subst hnm
    simpa using hr3
  rcases matchOp_sound h3 with hop | ⟨c, hcne, hop⟩
  · refine ⟨rest.takeWhile isSpaceChar, [], nl, ?_, hws, matchPc_shape hpc,
      ⟨nbody, hnm, hnbne, hnbchars⟩, hshape2, Or.inl rfl, hnl⟩
    have : rest = rest.takeWhile isSpaceChar ++ pcOptChars pc1' ++ ['[', 'h', 'r', 'e', 'f'] ++
        ([] : List Char) ++ ['=', '"'] ++ nm' ++ ['"', ']'] ++ pcOptChars pc2' ++ nl := by
      conv_lhs => rw [hrest]
      rw [matchPc_chars hpc, hr1, hop, hr3', hr4, hr5]
      simp [List.append_assoc]
    exact congrArg (List.cons 'a') this
  · refine ⟨rest.takeWhile isSpaceChar, [c], nl, ?_, hws, matchPc_shape hpc,
      ⟨nbody, hnm, hnbne, hnbchars⟩, hshape2, Or.inr ⟨c, rfl, hcne⟩, hnl⟩
    have : rest = rest.takeWhile isSpaceChar ++ pcOptChars pc1' ++ ['[', 'h', 'r', 'e', 'f'] ++
        [c] ++ ['=', '"'] ++ nm' ++ ['"', ']'] ++ pcOptChars pc2' ++ nl := by
      conv_lhs => rw [hrest]
      rw [matchPc_chars hpc, hr1, hop, hr3', hr4, hr5]
      simp [List.append_assoc]
    exact congrArg (List.cons 'a') this

theorem pcOptChars_none : pcOptChars none = [] := rfl

theorem pcOptChars_some (l : List Char) : pcOptChars (some l) = l := rfl

theorem matchEmoteSelector_complete {s : List Char} {p1 : Option (List Char)} {nm : List Char}
    {p2 : Option (List Char)} (h : SelectorDecomp s p1 nm p2) :
    matchEmoteSelector s = some (p1, nm, p2) := by
  obtain ⟨ws, op, nl, rfl, hws, hp1, hpath, hp2, hop, hnl⟩ := h
  obtain ⟨nbody, rfl, hnbne, hnbchars⟩ := hpath
  have hstep4 : matchOp (op ++ '=' :: '"' :: '/' ::
      (nbody ++ '"' :: ']' :: (pcOptChars p2 ++ nl))) =
      some ('/' :: (nbody ++ '"' :: ']' :: (pcOptChars p2 ++ nl))) := by
    rcases hop with rfl | ⟨c, rfl, hc⟩
    · exact matchOp_empty_op _
    · exact matchOp_single_op hc _
  have hstep5 : matchPath ('/' :: (nbody ++ '"' :: ']' :: (pcOptChars p2 ++ nl))) =
      some ('/' :: nbody, '"' :: ']' :: (pcOptChars p2 ++ nl)) := by
    refine matchPath_of_shape hnbne hnbchars ?_
    intro c hc
    rw [← Option.some.inj hc]
    decide
  have hstep6 : dropLit ['"', ']'] ('"' :: ']' :: (pcOptChars p2 ++ nl)) =
      some (pcOptChars p2 ++ nl) :=
    dropLit_append ['"', ']'] (pcOptChars p2 ++ nl)
  have hstep7 : matchEndPc (pcOptChars p2 ++ nl) = some p2 := by
    rcases p2 with _ | l
    · rcases hnl with rfl | rfl <;> rfl
    · obtain ⟨b2, rfl, hb2ne, hb2chars⟩ := hp2
      exact matchEndPc_of_shape hb2ne hb2chars hnl
  have hstep3 : dropLit ['[', 'h', 'r', 'e', 'f']
      ('[' :: 'h' :: 'r' :: 'e' :: 'f' ::
        (op ++ '=' :: '"' :: '/' :: (nbody ++ '"' :: ']' :: (pcOptChars p2 ++ nl)))) =
      some (op ++ '=' :: '"' :: '/' :: (nbody ++ '"' :: ']' :: (pcOptChars p2 ++ nl))) :=
    dropLit_append _ _
  rcases p1 with _ | l1
  · have hstep1 : (ws ++ ('[' :: 'h' :: 'r' :: 'e' :: 'f' ::
        (op ++ '=' :: '"' :: '/' :: (nbody ++ '"' :: ']' :: (pcOptChars p2 ++ nl))))).dropWhile
          isSpaceChar =
        '[' :: 'h' :: 'r' :: 'e' :: 'f' ::
          (op ++ '=' :: '"' :: '/' :: (nbody ++ '"' :: ']' :: (pcOptChars p2 ++ nl))) := by
      refine dropWhile_append_eq _ _ hws ?_
      intro c hc
      rw [← Option.some.inj hc]
      decide
    have hstep2 : matchPc ('[' :: 'h' :: 'r' :: 'e' :: 'f' ::
        (op ++ '=' :: '"' :: '/' :: (nbody ++ '"' :: ']' :: (pcOptChars p2 ++ nl)))) =
        (none, '[' :: 'h' :: 'r' :: 'e' :: 'f' ::
          (op ++ '=' :: '"' :: '/' :: (nbody ++ '"' :: ']' :: (pcOptChars p2 ++ nl)))) := by
      refine matchPc_not_colon ?_
      intro c hc
      rw [← Option.some.inj hc]
      decide
    simp only [matchEmoteSelector, pcOptChars_none, pcOptChars_some, List.append_assoc,
      List.cons_append, List.nil_append, hstep1, hstep2, hstep3, hstep4, hstep5, hstep6,
      hstep7, Option.some_bind, Option.map_some']
  · obtain ⟨b1, rfl, hb1ne, hb1chars⟩ := hp1
    have hstep1 : (ws ++ ':' :: (b1 ++ '[' :: 'h' :: 'r' :: 'e' :: 'f' ::
        (op ++ '=' :: '"' :: '/' :: (nbody ++ '"' :: ']' :: (pcOptChars p2 ++ nl))))).dropWhile
          isSpaceChar =
        ':' :: (b1 ++ '[' :: 'h' :: 'r' :: 'e' :: 'f' ::
          (op ++ '=' :: '"' :: '/' :: (nbody ++ '"' :: ']' :: (pcOptChars p2 ++ nl)))) := by
      refine dropWhile_append_eq _ _ hws ?_
      intro c hc
      rw [← Option.some.inj hc]
      decide
    have hstep2 : matchPc (':' :: (b1 ++ '[' :: 'h' :: 'r' :: 'e' :: 'f' ::
        (op ++ '=' :: '"' :: '/' :: (nbody ++ '"' :: ']' :: (pcOptChars p2 ++ nl))))) =
        (some (':' :: b1), '[' :: 'h' :: 'r' :: 'e' :: 'f' ::
          (op ++ '=' :: '"' :: '/' :: (nbody ++ '"' :: ']' :: (pcOptChars p2 ++ nl)))) := by
      refine matchPc_of_shape hb1ne hb1chars ?_
      intro c hc
      rw [← Option.some.inj hc]
      decide
    simp only [matchEmoteSelector, pcOptChars_none, pcOptChars_some, List.append_assoc,
      List.cons_append, List.nil_append, hstep1, hstep2, hstep3, hstep4, hstep5, hstep6,
      hstep7, Option.some_bind, Option.map_some']

/-! ## Claim C1 -/

/-- C1 (counterexample): the claim says every string not matching its grammar
(at most one pseudo-class) makes `_parse_emote_selector` return null.  The
selector `a:hover[href|="/x"]:active` has pseudo-classes in both positions, so
it is outside the claimed grammar, yet the classifier accepts it and returns
`("/x", ":hover")`. -/
theorem claim_C1_counterexample :
    (_parse_emote_selector "a:hover[href|=\"/x\"]:active").1 = some ("/x", some ":hover") ∧
    ¬ClaimC1Grammar "a:hover[href|=\"/x\"]:active" := by
  constructor
  · decide
  · rintro ⟨p1, nm, p2, hd, hor⟩
    have hm := matchEmoteSelector_complete hd
    have hm2 : matchEmoteSelector "a:hover[href|=\"/x\"]:active".toList =
        some (some ":hover".toList, "/x".toList, some ":active".toList) := by decide
    have hp := Option.some.inj (hm.symm.trans hm2)
    have hp1 : p1 = some ":hover".toList := congrArg Prod.fst hp
    have hp2 : p2 = some ":active".toList := congrArg (fun q => q.2.2) hp
    rcases hor with h | h
    · rw [h] at hp1
      exact absurd hp1 (by simp)
    · rw [h] at hp2
      exact absurd hp2 (by simp)

/-- C1 (amended): for every selector string of the grammar — where a
pseudo-class may appear after the `a` (after optional whitespace) and/or at
the very end — `_parse_emote_selector` returns `(name, suffix)` where the
resolving pseudo-class is the leading one if present, else the trailing one:
`:hover`/`:active` are kept verbatim, `:nth-of-type(n)` yields a null suffix,
and any other pseudo-class is kept with an unknown-pseudo-class warning; a
multiple-pseudo-class warning is printed when both positions are populated.
The grammar admits an optional single trailing newline (Python `$` matches
before it) and ASCII whitespace control characters in `\s`.  Every ASCII
string admitting no such decomposition returns null with no warning (the
ASCII restriction reflects that the embedding models the ASCII fragment of
Python's Unicode `\w`/`\s` classes). -/
theorem claim_C1_amended (s : String) :
    (∀ p1 nm p2, SelectorDecomp s.toList p1 nm p2 →
      _parse_emote_selector s =
        ((match p1.orElse fun _ => p2 with
          | none => some (String.mk nm, none)
          | some pc =>
            if String.mk pc = ":hover" ∨ String.mk pc = ":active" then
              some (String.mk nm, some (String.mk pc))
            else if String.mk pc = ":nth-of-type(n)" then some (String.mk nm, none)
            else some (String.mk nm, some (String.mk pc))),
         (if p1.isSome && p2.isSome then [ParseWarning.multiplePseudo s] else []) ++
           (match p1.orElse fun _ => p2 with
            | none => []
            | some pc =>
              if String.mk pc = ":hover" ∨ String.mk pc = ":active" then []
              else if String.mk pc = ":nth-of-type(n)" then []
              else [ParseWarning.unknownPseudo s]))) ∧
    ((∀ c ∈ s.toList, c.toNat < 128) →
      (∀ p1 nm p2, ¬SelectorDecomp s.toList p1 nm p2) →
      _parse_emote_selector s = (none, [])) := by
  constructor
  · intro p1 nm p2 h
    unfold _parse_emote_selector
    rw [matchEmoteSelector_complete h]
    rcases p1 with _ | pc1 <;> rcases p2 with _ | pc2 <;> dsimp only [Option.orElse] <;>
      split_ifs <;> simp
  · intro _ h
    unfold _parse_emote_selector
    rcases hm : matchEmoteSelector s.toList with _ | ⟨a, b, c⟩
    · rfl
    · exact absurd (matchEmoteSelector_sound hm) (h a b c)

/-- C1 (witness): the amended characterization applied to the concrete
selector `a:active[href|="/pp:3"]` (positive half) and to the ASCII
non-selector `.foo` (negative half). -/
theorem claim_C1_witness :
    (SelectorDecomp "a:active[href|=\"/pp:3\"]".toList (some ":active".toList)
      "/pp:3".toList none ∧
    _parse_emote_selector "a:active[href|=\"/pp:3\"]" =
      (some ("/pp:3", some ":active"), [])) ∧
    _parse_emote_selector ".foo" = (none, []) := by
  have hd : SelectorDecomp "a:active[href|=\"/pp:3\"]".toList (some ":active".toList)
      "/pp:3".toList none := by
    refine ⟨[], ['|'], [], by decide, by decide,
      ⟨"active".toList, by decide, by decide, by decide⟩,
      ⟨"pp:3".toList, by decide, by decide, by decide⟩, trivial,
      Or.inr ⟨'|', rfl, by decide⟩, Or.inl rfl⟩
  refine ⟨⟨hd, ?_⟩, ?_⟩
  · have h := (claim_C1_amended "a:active[href|=\"/pp:3\"]").1 _ _ _ hd
    rw [h]
    decide
  · refine (claim_C1_amended ".foo").2 (by decide) ?_
    rintro p1 nm p2 ⟨ws, op, nl, heq, _⟩
    have h0 := congrArg List.head? heq
    rw [show List.head? ".foo".toList = some '.' from rfl] at h0
    simp only [List.head?_cons] at h0
    exact absurd (Option.some.inj h0) (by decide)

/-! ## Claim C10 -/

theorem isPcChar_false_of_digit {c : Char}
    (h : c ∈ ['0', '1', '2', '3', '4', '5', '6', '7', '8', '9']) :
    isPcChar c = false := by
  fin_cases h <;> decide

/-- C10 (counterexample): the claim says a pseudo-class with a concrete index
such as `:nth-of-type(2)` is kept as the suffix with an unknown-pseudo-class
warning; in fact the digit `2` is outside the regex class `[a-zA-Z\-()]`, so
the selector does not match at all: the classifier returns null and prints
nothing. -/
theorem claim_C10_counterexample :
    _parse_emote_selector "a:nth-of-type(2)[href|=\"/x\"]" = (none, []) := by
  decide

/-- C10 (amended): only the exact literal pseudo-class `:nth-of-type(n)` is
silently dropped: in either position it yields a null suffix with no warning
(parts 1 and 2), while every other pseudo-class in either position is kept as
the suffix, so nothing else is dropped (parts 3 and 4); and a pseudo-class
with a concrete index - `:nth-of-type(` followed by any nonempty digit string
and `)` - makes the whole selector fail to match (null result, no warning),
because digits are outside the pseudo-class character class `[a-zA-Z\-()]`
(part 5). -/
theorem claim_C10_amended :
    (∀ (s : String) (nm : List Char),
        SelectorDecomp s.toList (some ":nth-of-type(n)".toList) nm none →
          _parse_emote_selector s = (some (String.mk nm, none), [])) ∧
    (∀ (s : String) (nm : List Char),
        SelectorDecomp s.toList none nm (some ":nth-of-type(n)".toList) →
          _parse_emote_selector s = (some (String.mk nm, none), [])) ∧
    (∀ (s : String) (nm pc : List Char),
        SelectorDecomp s.toList (some pc) nm none →
          pc ≠ ":nth-of-type(n)".toList →
          (_parse_emote_selector s).1 = some (String.mk nm, some (String.mk pc))) ∧
    (∀ (s : String) (nm pc : List Char),
        SelectorDecomp s.toList none nm (some pc) →
          pc ≠ ":nth-of-type(n)".toList →
          (_parse_emote_selector s).1 = some (String.mk nm, some (String.mk pc))) ∧
    (∀ ds : List Char, ds ≠ [] →
        (∀ c ∈ ds, c ∈ ['0', '1', '2', '3', '4', '5', '6', '7', '8', '9']) →
        _parse_emote_selector (String.mk ('a' :: ':' :: ("nth-of-type(".toList ++
          (ds ++ ")[href|=\"/x\"]".toList)))) = (none, [])) := by
  refine ⟨?_, ?_, ?_, ?_, ?_⟩
  · intro s nm h
    unfold _parse_emote_selector
    rw [matchEmoteSelector_complete h]
    dsimp only [Option.orElse]
    split_ifs <;> simp_all
  · intro s nm h
    unfold _parse_emote_selector
    rw [matchEmoteSelector_complete h]
    dsimp only [Option.orElse]
    split_ifs <;> simp_all
  · intro s nm pc h hne
    have hpc : ¬(String.mk pc = ":nth-of-type(n)") :=
      fun hh => hne (congrArg String.toList hh)
    unfold _parse_emote_selector
    rw [matchEmoteSelector_complete h]
    dsimp only [Option.orElse]
    by_cases hha : String.mk pc = ":hover" ∨ String.mk pc = ":active"
    · rw [if_pos hha]
    · rw [if_neg hha, if_neg hpc]
  · intro s nm pc h hne
    have hpc : ¬(String.mk pc = ":nth-of-type(n)") :=
      fun hh => hne (congrArg String.toList hh)
    unfold _parse_emote_selector
    rw [matchEmoteSelector_complete h]
    dsimp only [Option.orElse]
    by_cases hha : String.mk pc = ":hover" ∨ String.mk pc = ":active"
    · rw [if_pos hha]
    · rw [if_neg hha, if_neg hpc]
  · intro ds hne hdig
    obtain ⟨d, ds', rfl⟩ := List.exists_cons_of_ne_nil hne
    have hd0 : isPcChar d = false :=
      isPcChar_false_of_digit (hdig d (List.mem_cons_self d ds'))
    have hd1 : d ≠ '[' := by
      have hmem := hdig d (List.mem_cons_self d ds')
      fin_cases hmem <;> decide
    have hdw : List.dropWhile isSpaceChar
        (':' :: ("nth-of-type(".toList ++ ((d :: ds') ++ ")[href|=\"/x\"]".toList))) =
        ':' :: ("nth-of-type(".toList ++ ((d :: ds') ++ ")[href|=\"/x\"]".toList)) := by
      simp [List.dropWhile_cons, show isSpaceChar ':' = false from by decide]
    have hpc : matchPc (':' :: ("nth-of-type(".toList ++
        ((d :: ds') ++ ")[href|=\"/x\"]".toList))) =
        (some (':' :: "nth-of-type(".toList),
         (d :: ds') ++ ")[href|=\"/x\"]".toList) := by
      refine matchPc_of_shape (by decide) (by decide) ?_
      intro c hc
      rw [List.cons_append, List.head?_cons] at hc
      rw [← Option.some.inj hc]
      exact hd0
    have hdl : dropLit ['[', 'h', 'r', 'e', 'f']
        ((d :: ds') ++ ")[href|=\"/x\"]".toList) = none := by
      rw [List.cons_append]
      simp [dropLit, hd1]
    have hm : matchEmoteSelector ('a' :: ':' :: ("nth-of-type(".toList ++
        ((d :: ds') ++ ")[href|=\"/x\"]".toList))) = none := by
      simp only [matchEmoteSelector, hdw, hpc, hdl, Option.none_bind]
    unfold _parse_emote_selector
    rw [show (String.mk ('a' :: ':' :: ("nth-of-type(".toList ++
        ((d :: ds') ++ ")[href|=\"/x\"]".toList)))).toList =
        'a' :: ':' :: ("nth-of-type(".toList ++
        ((d :: ds') ++ ")[href|=\"/x\"]".toList)) from rfl, hm]

/-- C10 (witness): the amended claim applied at the concrete selectors
`a:nth-of-type(n)[href="/pp:3"]` (literal `n`, silently dropped),
`a:hover[href="/pp:3"]` (any other pseudo-class is kept), and
`a:nth-of-type(2)[href|="/x"]` (concrete index, no match at all). -/
theorem claim_C10_witness :
    (SelectorDecomp "a:nth-of-type(n)[href=\"/pp:3\"]".toList
      (some ":nth-of-type(n)".toList) "/pp:3".toList none ∧
     _parse_emote_selector "a:nth-of-type(n)[href=\"/pp:3\"]" =
       (some ("/pp:3", none), [])) ∧
    (_parse_emote_selector "a:hover[href=\"/pp:3\"]").1 =
      some ("/pp:3", some ":hover") ∧
    _parse_emote_selector "a:nth-of-type(2)[href|=\"/x\"]" = (none, []) := by
  have hd : SelectorDecomp "a:nth-of-type(n)[href=\"/pp:3\"]".toList
      (some ":nth-of-type(n)".toList) "/pp:3".toList none := by
    refine ⟨[], [], [], by decide, by decide,
      ⟨"nth-of-type(n)".toList, by decide, by decide, by decide⟩,
      ⟨"pp:3".toList, by decide, by decide, by decide⟩, trivial, Or.inl rfl, Or.inl rfl⟩
  have hd2 : SelectorDecomp "a:hover[href=\"/pp:3\"]".toList
      (some ":hover".toList) "/pp:3".toList none := by
    refine ⟨[], [], [], by decide, by decide,
      ⟨"hover".toList, by decide, by decide, by decide⟩,
      ⟨"pp:3".toList, by decide, by decide, by decide⟩, trivial, Or.inl rfl, Or.inl rfl⟩
  refine ⟨⟨hd, claim_C10_amended.1 _ _ hd⟩,
    claim_C10_amended.2.2.1 _ _ _ hd2 (by decide), ?_⟩
  have h5 := claim_C10_amended.2.2.2.2 ['2'] (by decide) (by decide)
  rw [show String.mk ('a' :: ':' :: ("nth-of-type(".toList ++
      (['2'] ++ ")[href|=\"/x\"]".toList))) = "a:nth-of-type(2)[href|=\"/x\"]" by decide] at h5
  exact h5

/-! ## Segment lemmas for filter_ponyscript_ignores -/

theorem filterGo_append (st : FilterState) (xs ys : List CssRule) :
    filterGo st (xs ++ ys) =
      ((filterGo (filterGo st xs).1 ys).1,
       (filterGo st xs).2.1 ++ (filterGo (filterGo st xs).1 ys).2.1,
       (filterGo st xs).2.2 ++ (filterGo (filterGo st xs).1 ys).2.2) := by
  induction xs generalizing st with
  | nil => simp [filterGo]
  | cons r rest ih => simp [filterGo, ih, List.append_assoc]

theorem filterGo_length (st : FilterState) (rules : List CssRule) :
    (filterGo st rules).2.1.length = rules.length := by
  induction rules generalizing st with
  | nil => rfl
  | cons r rest ih => simp [filterGo, ih]

theorem filterGo_no_start {rules : List CssRule} {st : FilterState}
    (hig : st.ignoring = false)
    (h : ∀ r ∈ rules, "START-PONYSCRIPT-IGNORE" ∉ r.selectors) :
    (filterGo st rules).2.1 = rules.map (fun _ => false) ∧
      (filterGo st rules).1.ignoring = false := by
  induction rules generalizing st with
  | nil => exact ⟨rfl, hig⟩
  | cons r rest ih =>
    have hr := h r (List.mem_cons_self r rest)
    have hrest := fun r hm => h r (List.mem_cons_of_mem _ hm)
    have hstep : (filterStep st r).2.1 = false ∧ (filterStep st r).1.ignoring = false := by
      simp [filterStep, hr, hig]
    obtain ⟨ihf, ihi⟩ := @ih (filterStep st r).1 hstep.2 hrest
    constructor
    · simp [filterGo, ihf, hstep.1]
    · simp [filterGo, ihi]

theorem filterGo_all_ignoring {rules : List CssRule} {st : FilterState}
    (hig : st.ignoring = true)
    (h : ∀ r ∈ rules, "END-PONYSCRIPT-IGNORE" ∉ r.selectors) :
    (filterGo st rules).2.1 = rules.map (fun _ => true) ∧
      (filterGo st rules).1.ignoring = true := by
  induction rules generalizing st with
  | nil => exact ⟨rfl, hig⟩
  | cons r rest ih =>
    have hr := h r (List.mem_cons_self r rest)
    have hrest := fun r hm => h r (List.mem_cons_of_mem _ hm)
    have hstep : (filterStep st r).2.1 = true ∧ (filterStep st r).1.ignoring = true := by
      simp [filterStep, hr, hig]
    obtain ⟨ihf, ihi⟩ := @ih (filterStep st r).1 hstep.2 hrest
    constructor
    · simp [filterGo, ihf, hstep.1]
    · simp [filterGo, ihi]

/-! ## Claim C2 -/

/-- C2 (counterexample): the claim says only the `.foo` rule gets
`ignore = true` and all other rules, the marker rules included, get
`ignore = false`; in fact on the three-rule sequence the start and end
marker rules are themselves flagged `true` as well. -/
theorem claim_C2_counterexample :
    (filter_ponyscript_ignores
        [⟨["START-PONYSCRIPT-IGNORE"], []⟩, ⟨[".foo"], []⟩,
         ⟨["END-PONYSCRIPT-IGNORE"], []⟩]).1 = [true, true, true] ∧
    [true, true, true] ≠ [false, true, false] := by
  constructor
  · decide
  · decide

/-- C2 (amended): in a sequence [preceding rules, start-marker rule, the
`.foo` rule, end-marker rule, following rules], the `.foo` rule and both
marker rules get `ignore = true`, and every rule before the start marker and
after the end marker gets `ignore = false` (provided no preceding/following
rule contains a start marker of its own, and the start-marker rule does not
also contain the end marker). -/
theorem claim_C2_amended (pre post : List CssRule) (startR fooR endR : CssRule)
    (h1 : "START-PONYSCRIPT-IGNORE" ∈ startR.selectors)
    (h2 : "END-PONYSCRIPT-IGNORE" ∉ startR.selectors)
    (h3 : fooR.selectors = [".foo"])
    (h4 : "END-PONYSCRIPT-IGNORE" ∈ endR.selectors)
    (h5 : ∀ r ∈ pre, "START-PONYSCRIPT-IGNORE" ∉ r.selectors)
    (h6 : ∀ r ∈ post, "START-PONYSCRIPT-IGNORE" ∉ r.selectors) :
    (filter_ponyscript_ignores (pre ++ startR :: fooR :: endR :: post)).1 =
      pre.map (fun _ => false) ++ true :: true :: true :: post.map (fun _ => false) := by
  unfold filter_ponyscript_ignores
  rw [filterGo_append]
  obtain ⟨hpreF, hpreI⟩ := @filterGo_no_start _ ⟨[], [], false⟩ rfl h5
  have hfoo1 : "START-PONYSCRIPT-IGNORE" ∉ fooR.selectors := by
    rw [h3]
    decide
  have hfoo2 : "END-PONYSCRIPT-IGNORE" ∉ fooR.selectors := by
    rw [h3]
    decide
  have hstart : (filterStep (filterGo ⟨[], [], false⟩ pre).1 startR).2.1 = true ∧
      (filterStep (filterGo ⟨[], [], false⟩ pre).1 startR).1.ignoring = true := by
    simp [filterStep, h1, h2]
  have hfooStep : ∀ st : FilterState, st.ignoring = true →
      (filterStep st fooR).2.1 = true ∧ (filterStep st fooR).1.ignoring = true := by
    intro st hst
    simp [filterStep, hfoo1, hfoo2, hst]
  have hendStep : ∀ st : FilterState, st.ignoring = true →
      (filterStep st endR).2.1 = true ∧ (filterStep st endR).1.ignoring = false := by
    intro st hst
    simp [filterStep, h4, hst]
  simp only [filterGo]
  obtain ⟨hf1, hi1⟩ := hstart
  obtain ⟨hf2, hi2⟩ := hfooStep _ hi1
  obtain ⟨hf3, hi3⟩ := hendStep _ hi2
  obtain ⟨hpostF, _⟩ := filterGo_no_start hi3 h6
  simp [hpreF, hf1, hf2, hf3, hpostF]

/-- C2 (witness): the amended claim applied to a concrete five-rule
sequence. -/
theorem claim_C2_witness :
    (filter_ponyscript_ignores
        [⟨[".a"], []⟩, ⟨["START-PONYSCRIPT-IGNORE"], []⟩, ⟨[".foo"], []⟩,
         ⟨["END-PONYSCRIPT-IGNORE"], []⟩, ⟨[".b"], []⟩]).1 =
      [false, true, true, true, false] := by
  have h := claim_C2_amended [⟨[".a"], []⟩] [⟨[".b"], []⟩]
      ⟨["START-PONYSCRIPT-IGNORE"], []⟩ ⟨[".foo"], []⟩ ⟨["END-PONYSCRIPT-IGNORE"], []⟩
      (by decide) (by decide) rfl (by decide) (by decide) (by decide)
  simpa using h

/-! ## Claim C3 -/

/-- C3: when a rule containing the start marker precedes a matching rule
containing the end marker (no end marker in between, and the start-marker
rule does not itself carry an end marker), both marker rules get
`ignore = true` — the end marker clears the ignoring state only after its
own flag is assigned — and the rules after the end marker, up to any further
start marker (`post1`; the remainder `post2` is unconstrained and may open
further ignore regions), get `ignore = false`.  The length equation pins the
`pre` flags to the `pre` rules positionally. -/
theorem claim_C3 (pre mid post1 post2 : List CssRule) (startR endR : CssRule)
    (h1 : "START-PONYSCRIPT-IGNORE" ∈ startR.selectors)
    (h2 : "END-PONYSCRIPT-IGNORE" ∉ startR.selectors)
    (h3 : ∀ r ∈ mid, "END-PONYSCRIPT-IGNORE" ∉ r.selectors)
    (h4 : "END-PONYSCRIPT-IGNORE" ∈ endR.selectors)
    (h5 : ∀ r ∈ post1, "START-PONYSCRIPT-IGNORE" ∉ r.selectors) :
    (filter_ponyscript_ignores pre).1.length = pre.length ∧
    ∃ tail,
      (filter_ponyscript_ignores
          (pre ++ startR :: (mid ++ endR :: (post1 ++ post2)))).1 =
        (filter_ponyscript_ignores pre).1 ++
          true :: (mid.map (fun _ => true) ++ true ::
            (post1.map (fun _ => false) ++ tail)) := by
  constructor
  · exact filterGo_length _ _
  have hstart : (filterStep (filterGo ⟨[], [], false⟩ pre).1 startR).2.1 = true ∧
      (filterStep (filterGo ⟨[], [], false⟩ pre).1 startR).1.ignoring = true := by
    simp [filterStep, h1, h2]
  obtain ⟨hf1, hi1⟩ := hstart
  obtain ⟨hmidF, hmidI⟩ := filterGo_all_ignoring hi1 h3
  have hend : ∀ st : FilterState, st.ignoring = true →
      (filterStep st endR).2.1 = true ∧ (filterStep st endR).1.ignoring = false := by
    intro st hst
    simp [filterStep, h4, hst]
  obtain ⟨hf3, hi3⟩ := hend _ hmidI
  obtain ⟨hpostF, _⟩ := filterGo_no_start hi3 h5
  refine ⟨(filterGo (filterGo (filterStep (filterGo (filterStep
      (filterGo ⟨[], [], false⟩ pre).1 startR).1 mid).1 endR).1 post1).1 post2).2.1, ?_⟩
  unfold filter_ponyscript_ignores
  rw [filterGo_append]
  simp only [filterGo]
  rw [filterGo_append]
  simp [filterGo, filterGo_append, hf1, hmidF, hf3, hpostF]

/-- C3 (witness): the claim applied to a concrete seven-rule sequence whose
unconstrained tail opens a second ignore region. -/
theorem claim_C3_witness :
    (filter_ponyscript_ignores [(⟨[".a"], []⟩ : CssRule)]).1.length =
      [(⟨[".a"], []⟩ : CssRule)].length ∧
    ∃ tail,
      (filter_ponyscript_ignores
          [⟨[".a"], []⟩, ⟨["START-PONYSCRIPT-IGNORE"], []⟩, ⟨[".x"], []⟩,
           ⟨["END-PONYSCRIPT-IGNORE"], []⟩, ⟨[".b"], []⟩,
           ⟨["START-PONYSCRIPT-IGNORE"], []⟩, ⟨[".y"], []⟩]).1 =
        (filter_ponyscript_ignores [(⟨[".a"], []⟩ : CssRule)]).1 ++
          true :: ([true] ++ true :: ([false] ++ tail)) := by
  exact claim_C3 [⟨[".a"], []⟩] [⟨[".x"], []⟩] [⟨[".b"], []⟩]
      [⟨["START-PONYSCRIPT-IGNORE"], []⟩, ⟨[".y"], []⟩]
      ⟨["START-PONYSCRIPT-IGNORE"], []⟩ ⟨["END-PONYSCRIPT-IGNORE"], []⟩
      (by decide) (by decide) (by decide) (by decide) (by decide)

/-! ## Counting lemmas for the split-selector warnings (claim C4) -/

theorem count_filter_mem (s : String) (l m : List String) :
    ((l.filter fun x => decide (x ∈ m)).count s) = if s ∈ m then l.count s else 0 := by
  by_cases h : s ∈ m
  · rw [if_pos h, List.count_filter (by simpa using h)]
  · rw [if_neg h]
    refine List.count_eq_zero.mpr ?_
    intro hmem
    rw [List.mem_filter] at hmem
    exact h (by simpa using hmem.2)

theorem countSpec_replicate_true (k : Nat) (l : List Bool) (sF sT : Bool) :
    countSpec (List.replicate k true ++ l) sF sT =
      (if sF then k else 0) + countSpec l sF (sT || decide (0 < k)) := by
  induction k generalizing sT with
  | zero => simp
  | succ n ih =>
    rw [List.replicate_succ]
    have hd : decide (0 < n + 1) = true := by simp
    rw [List.cons_append]
    rw [show countSpec (true :: (List.replicate n true ++ l)) sF sT =
      (if sF then 1 else 0) + countSpec (List.replicate n true ++ l) sF true from rfl]
    rw [ih]
    simp only [hd, Bool.or_true, Bool.true_or]
    cases sF <;> simp
    omega

theorem countSpec_replicate_false (k : Nat) (l : List Bool) (sF sT : Bool) :
    countSpec (List.replicate k false ++ l) sF sT =
      (if sT then k else 0) + countSpec l (sF || decide (0 < k)) sT := by
  induction k generalizing sF with
  | zero => simp
  | succ n ih =>
    rw [List.replicate_succ]
    have hd : decide (0 < n + 1) = true := by simp
    rw [List.cons_append]
    rw [show countSpec (false :: (List.replicate n false ++ l)) sF sT =
      (if sT then 1 else 0) + countSpec (List.replicate n false ++ l) true sT from rfl]
    rw [ih]
    simp only [hd, Bool.or_true, Bool.true_or]
    cases sT <;> simp
    omega

theorem filterGo_count_warns (rules : List CssRule) (st : FilterState) (s : String) :
    ((filterGo st rules).2.2).count s =
      countSpec (occFlagsGo st.ignoring s rules) (decide (s ∈ st.visible))
        (decide (s ∈ st.hidden)) := by
  induction rules generalizing st with
  | nil => simp [filterGo, occFlagsGo, countSpec]
  | cons r rest ih =>
    by_cases hS : "START-PONYSCRIPT-IGNORE" ∈ r.selectors
    · simp only [filterGo, filterStep, occFlagsGo, List.count_append, if_pos hS,
        count_filter_mem, countSpec_replicate_true, ih]
      by_cases hv : s ∈ st.visible <;>
        simp [hv, List.mem_append, List.count_pos_iff, Bool.or_comm]
    · cases hI : st.ignoring
      · simp only [filterGo, filterStep, occFlagsGo, List.count_append, if_neg hS, hI,
          count_filter_mem, countSpec_replicate_false, ih]
        by_cases hh : s ∈ st.hidden <;>
          simp [hh, List.mem_append, List.count_pos_iff, Bool.or_comm]
      · simp only [filterGo, filterStep, occFlagsGo, List.count_append, if_neg hS, hI,
          count_filter_mem, countSpec_replicate_true, ih]
        by_cases hv : s ∈ st.visible <;>
          simp [hv, List.mem_append, List.count_pos_iff, Bool.or_comm]

theorem countSpec_pos_iff (occs : List Bool) (sF sT : Bool) :
    0 < countSpec occs sF sT ↔
      (true ∈ occs ∧ (sF = true ∨ false ∈ occs)) ∨
        (false ∈ occs ∧ (sT = true ∨ true ∈ occs)) := by
  induction occs generalizing sF sT with
  | nil => simp [countSpec]
  | cons b rest ih =>
    cases b
    · rw [show countSpec (false :: rest) sF sT =
        (if sT then 1 else 0) + countSpec rest true sT from rfl]
      have : 0 < (if sT then 1 else 0) + countSpec rest true sT ↔
          sT = true ∨ 0 < countSpec rest true sT := by
        cases sT <;> simp
      rw [this, ih]
      simp only [List.mem_cons]
      simp
      tauto
    · rw [show countSpec (true :: rest) sF sT =
        (if sF then 1 else 0) + countSpec rest sF true from rfl]
      have : 0 < (if sF then 1 else 0) + countSpec rest sF true ↔
          sF = true ∨ 0 < countSpec rest sF true := by
        cases sF <;> simp
      rw [this, ih]
      simp only [List.mem_cons]
      simp
      tauto

theorem count_true_add_count_false (occs : List Bool) :
    occs.count true + occs.count false = occs.length := by
  induction occs with
  | nil => rfl
  | cons b rest ih => cases b <;> simp [List.count_cons] <;> omega

theorem countSpec_one_one {occs : List Bool} (ht : occs.count true = 1)
    (hf : occs.count false = 1) : countSpec occs false false = 1 := by
  have hlen : occs.length = 2 := by
    rw [← count_true_add_count_false]
    omega
  rcases occs with _ | ⟨a, occs1⟩
  · simp at hlen
  rcases occs1 with _ | ⟨b, occs2⟩
  · simp at hlen
  rcases occs2 with _ | ⟨c, occs3⟩
  · cases a <;> cases b <;> simp_all [List.count_cons, countSpec]
  · simp at hlen

theorem occFlagsGo_eq_zip (rules : List CssRule) (st : FilterState) (s : String) :
    occFlagsGo st.ignoring s rules =
      (rules.zip (filterGo st rules).2.1).flatMap
        (fun p => List.replicate (p.1.selectors.count s) p.2) := by
  induction rules generalizing st with
  | nil => rfl
  | cons r rest ih =>
    have hih := ih (filterStep st r).1
    simp only [occFlagsGo, filterGo, List.zip_cons_cons, List.flatMap_cons]
    rw [← hih]
    rfl

theorem mem_occs_iff (rules : List CssRule) (flags : List Bool) (s : String) (b : Bool) :
    (b ∈ (rules.zip flags).flatMap fun p => List.replicate (p.1.selectors.count s) p.2) ↔
      ∃ p ∈ rules.zip flags, s ∈ p.1.selectors ∧ p.2 = b := by
  rw [List.mem_flatMap]
  constructor
  · rintro ⟨p, hp, hmem⟩
    rw [List.mem_replicate] at hmem
    refine ⟨p, hp, ?_, hmem.2.symm⟩
    rw [← List.count_pos_iff]
    omega
  · rintro ⟨p, hp, hmem, hb⟩
    refine ⟨p, hp, ?_⟩
    rw [List.mem_replicate]
    rw [← List.count_pos_iff] at hmem
    exact ⟨by omega, hb.symm⟩

/-! ## Claim C4 -/

/-- C4: a split-selector warning for a selector string `s` is printed iff `s`
occurs both in some rule flagged `ignore = true` and in some rule flagged
`ignore = false`; when `s` occurs exactly twice, once under each flag, the
warning is printed exactly once, and when it never occurs under
`ignore = true` (e.g. once before a start marker and once after the matching
end marker, both visible) no warning is printed at all.  Occurrences are
counted per selector-list entry, paired with the flag its rule receives. -/
theorem claim_C4 (rules : List CssRule) (s : String) :
    ((s ∈ (filter_ponyscript_ignores rules).2) ↔
      ((∃ p ∈ rules.zip (filter_ponyscript_ignores rules).1,
          s ∈ p.1.selectors ∧ p.2 = true) ∧
       (∃ p ∈ rules.zip (filter_ponyscript_ignores rules).1,
          s ∈ p.1.selectors ∧ p.2 = false))) ∧
    ((((rules.zip (filter_ponyscript_ignores rules).1).flatMap fun p =>
          List.replicate (p.1.selectors.count s) p.2).count true = 1 →
      ((rules.zip (filter_ponyscript_ignores rules).1).flatMap fun p =>
          List.replicate (p.1.selectors.count s) p.2).count false = 1 →
      (filter_ponyscript_ignores rules).2.count s = 1)) ∧
    ((((rules.zip (filter_ponyscript_ignores rules).1).flatMap fun p =>
          List.replicate (p.1.selectors.count s) p.2).count true = 0 →
      (filter_ponyscript_ignores rules).2.count s = 0)) := by
  have hinit : ((⟨[], [], false⟩ : FilterState)).ignoring = false := rfl
  have hcount : (filter_ponyscript_ignores rules).2.count s =
      countSpec ((rules.zip (filter_ponyscript_ignores rules).1).flatMap fun p =>
        List.replicate (p.1.selectors.count s) p.2) false false := by
    have h1 := filterGo_count_warns rules ⟨[], [], false⟩ s
    have h2 := occFlagsGo_eq_zip rules ⟨[], [], false⟩ s
    rw [hinit] at h2
    rw [h2] at h1
    simpa [filter_ponyscript_ignores] using h1
  refine ⟨?_, ?_, ?_⟩
  · rw [← List.count_pos_iff, hcount, countSpec_pos_iff]
    rw [mem_occs_iff, mem_occs_iff]
    simp
    tauto
  · intro ht hf
    rw [hcount]
    exact countSpec_one_one ht hf
  · intro ht
    rw [hcount]
    by_contra hne
    have hpos : 0 < countSpec ((rules.zip (filter_ponyscript_ignores rules).1).flatMap fun p =>
        List.replicate (p.1.selectors.count s) p.2) false false := by omega
    rw [countSpec_pos_iff] at hpos
    have htmem : true ∉ ((rules.zip (filter_ponyscript_ignores rules).1).flatMap fun p =>
        List.replicate (p.1.selectors.count s) p.2) := by
      rw [← List.count_eq_zero]
      exact ht
    tauto

/-- C4 (witness): on the concrete sequence `.bar`, start marker, `.bar`, end
marker, the selector `.bar` occurs once visible and once ignored, and exactly
one split warning is printed. -/
theorem claim_C4_witness :
    (((([⟨[".bar"], []⟩, ⟨["START-PONYSCRIPT-IGNORE"], []⟩, ⟨[".bar"], []⟩,
        ⟨["END-PONYSCRIPT-IGNORE"], []⟩] : List CssRule).zip
          (filter_ponyscript_ignores [⟨[".bar"], []⟩, ⟨["START-PONYSCRIPT-IGNORE"], []⟩,
            ⟨[".bar"], []⟩, ⟨["END-PONYSCRIPT-IGNORE"], []⟩]).1).flatMap fun p =>
        List.replicate (p.1.selectors.count ".bar") p.2).count true = 1) ∧
    ((filter_ponyscript_ignores [⟨[".bar"], []⟩, ⟨["START-PONYSCRIPT-IGNORE"], []⟩,
        ⟨[".bar"], []⟩, ⟨["END-PONYSCRIPT-IGNORE"], []⟩]).2.count ".bar" = 1) := by
  refine ⟨by decide, ?_⟩
  exact (claim_C4 [⟨[".bar"], []⟩, ⟨["START-PONYSCRIPT-IGNORE"], []⟩, ⟨[".bar"], []⟩,
    ⟨["END-PONYSCRIPT-IGNORE"], []⟩] ".bar").2.1 (by decide) (by decide)

/-! ## Association-list lemmas -/

theorem alookup_eq_none_of_not_mem {α β : Type} [DecidableEq α] {k : α} {l : List (α × β)}
    (h : k ∉ l.map Prod.fst) : alookup k l = none := by
  induction l with
  | nil => rfl
  | cons p rest ih =>
    simp only [List.map_cons, List.mem_cons] at h
    push_neg at h
    simp only [alookup, if_neg (fun hh : p.1 = k => h.1 (Eq.symm hh))]
    exact ih h.2

theorem alookup_some_mem {α β : Type} [DecidableEq α] {k : α} {v : β} {l : List (α × β)}
    (h : alookup k l = some v) : (k, v) ∈ l := by
  induction l with
  | nil => simp [alookup] at h
  | cons p rest ih =>
    simp only [alookup] at h
    split at h
    · next heq =>
      obtain rfl := Option.some.inj h
      subst heq
      exact List.mem_cons_self p rest
    · exact List.mem_cons_of_mem _ (ih h)

theorem mem_alookup_nodup {α β : Type} [DecidableEq α] {k : α} {v : β} {l : List (α × β)}
    (hnd : (l.map Prod.fst).Nodup) (h : (k, v) ∈ l) : alookup k l = some v := by
  induction l with
  | nil => simp at h
  | cons p rest ih =>
    simp only [List.map_cons, List.nodup_cons] at hnd
    rcases List.mem_cons.mp h with rfl | hmem
    · simp [alookup]
    · have hne : p.1 ≠ k := by
        intro hh
        exact hnd.1 (hh ▸ List.mem_map_of_mem Prod.fst hmem)
      simp only [alookup, if_neg hne]
      exact ih hnd.2 hmem

theorem alookup_dictInsert {α β : Type} [DecidableEq α] (m : List (α × β)) (k k' : α) (v : β) :
    alookup k' (dictInsert m k v) = if k' = k then some v else alookup k' m := by
  induction m with
  | nil =>
    rcases eq_or_ne k' k with rfl | h
    · simp [dictInsert, alookup]
    · simp [dictInsert, alookup, h, Ne.symm h]
  | cons p rest ih =>
    by_cases hpk : p.1 = k
    · rcases eq_or_ne k' k with rfl | h
      · simp [dictInsert, alookup, hpk]
      · simp [dictInsert, alookup, hpk, h, Ne.symm h]
    · rcases eq_or_ne k' k with rfl | h
      · simp [dictInsert, alookup, hpk, ih]
    --
      · simp [dictInsert, alookup, hpk, h, ih]

theorem alookup_dictUpdate {α β : Type} [DecidableEq α] (base upd : List (α × β)) (k : α)
    (h : (upd.map Prod.fst).Nodup) :
    alookup k (dictUpdate base upd) = (alookup k upd).orElse fun _ => alookup k base := by
  induction upd generalizing base with
  | nil => simp [dictUpdate, alookup, Option.orElse]
  | cons p rest ih =>
    have hstep : dictUpdate base (p :: rest) = dictUpdate (dictInsert base p.1 p.2) rest := rfl
    rw [hstep]
    simp only [List.map_cons, List.nodup_cons] at h
    rw [ih _ h.2]
    rcases eq_or_ne k p.1 with rfl | hk
    · have hre : alookup p.1 rest = none := alookup_eq_none_of_not_mem h.1
      simp [alookup, hre, alookup_dictInsert, Option.orElse]
    · simp [alookup, Ne.symm hk, hk, alookup_dictInsert, Option.orElse]

/-! ## Claim C5 -/

/-- C5: merging two partial emotes with the same `(name, suffix)` key, the
later fragment's value wins for every property it defines (properties it
does not define keep the first fragment's value), and a redefinition warning
naming the key, property, old value and new value is printed exactly for the
properties present in both fragments with differing values; an equal value
overwrites silently. -/
theorem claim_C5 (n : String) (sfx : Option String) (css1 css2 : List (String × String))
    (h2 : (css2.map Prod.fst).Nodup) :
    (build_emote_map [⟨n, sfx, css1⟩, ⟨n, sfx, css2⟩]).1 =
      [((n, sfx), ⟨n, sfx, dictUpdate css1 css2⟩)] ∧
    (∀ p v2, alookup p css2 = some v2 → alookup p (dictUpdate css1 css2) = some v2) ∧
    (∀ p, alookup p css2 = none → alookup p (dictUpdate css1 css2) = alookup p css1) ∧
    (∀ p, (∃ w ∈ (build_emote_map [⟨n, sfx, css1⟩, ⟨n, sfx, css2⟩]).2, w.property = p) ↔
      ∃ v1 v2, alookup p css1 = some v1 ∧ alookup p css2 = some v2 ∧ v1 ≠ v2) ∧
    (∀ w ∈ (build_emote_map [⟨n, sfx, css1⟩, ⟨n, sfx, css2⟩]).2,
      w.key = (n, sfx) ∧ alookup w.property css1 = some w.oldValue ∧
        alookup w.property css2 = some w.newValue ∧ w.oldValue ≠ w.newValue) := by
  have hmap : (build_emote_map [⟨n, sfx, css1⟩, ⟨n, sfx, css2⟩]).1 =
      [((n, sfx), ⟨n, sfx, dictUpdate css1 css2⟩)] := by
    simp [build_emote_map, alookup, updateValue]
  have hwarns : (build_emote_map [⟨n, sfx, css1⟩, ⟨n, sfx, css2⟩]).2 =
      mergeWarnings (n, sfx) css1 css2 := by
    simp [build_emote_map, alookup, updateValue]
  refine ⟨hmap, ?_, ?_, ?_, ?_⟩
  · intro p v2 hv
    rw [alookup_dictUpdate _ _ _ h2, hv]
    rfl
  · intro p hv
    rw [alookup_dictUpdate _ _ _ h2, hv]
    rfl
  · intro p
    rw [hwarns]
    constructor
    · rintro ⟨w, hw, hprop⟩
      rw [mergeWarnings, List.mem_filterMap] at hw
      obtain ⟨pv, hpv, heq⟩ := hw
      rcases halk : alookup pv.1 css1 with _ | old
      · rw [halk] at heq
        simp at heq
      · rw [halk] at heq
        dsimp only at heq
        by_cases hne : old ≠ pv.2
        · rw [if_pos hne] at heq
          obtain rfl := Option.some.inj heq
          simp only [] at hprop
          subst hprop
          exact ⟨old, pv.2, halk, mem_alookup_nodup h2 hpv, hne⟩
        · rw [if_neg hne] at heq
          simp at heq
    · rintro ⟨v1, v2, hv1, hv2, hne⟩
      refine ⟨⟨(n, sfx), p, v1, v2⟩, ?_, rfl⟩
      rw [mergeWarnings, List.mem_filterMap]
      refine ⟨(p, v2), alookup_some_mem hv2, ?_⟩
      rw [show ((p, v2) : String × String).1 = p from rfl, hv1]
      dsimp only
      rw [if_pos hne]
  · intro w hw
    rw [hwarns, mergeWarnings, List.mem_filterMap] at hw
    obtain ⟨pv, hpv, heq⟩ := hw
    rcases halk : alookup pv.1 css1 with _ | old
    · rw [halk] at heq
      simp at heq
    · rw [halk] at heq
      dsimp only at heq
      by_cases hne : old ≠ pv.2
      · rw [if_pos hne] at heq
        obtain rfl := Option.some.inj heq
        exact ⟨rfl, halk, mem_alookup_nodup h2 hpv, hne⟩
      · rw [if_neg hne] at heq
        simp at heq

/-- C5 (witness): the width 5 → width 10 example: the merged map keeps
width 10 and exactly the width-redefinition warning is emitted. -/
theorem claim_C5_witness :
    (build_emote_map [⟨"e", none, [("width", "5")]⟩, ⟨"e", none, [("width", "10")]⟩]).1 =
      [(("e", none), ⟨"e", none, dictUpdate [("width", "5")] [("width", "10")]⟩)] ∧
    dictUpdate [("width", "5")] [("width", "10")] = [("width", "10")] ∧
    (∃ w ∈ (build_emote_map [⟨"e", none, [("width", "5")]⟩,
        ⟨"e", none, [("width", "10")]⟩]).2, w.property = "width") := by
  refine ⟨(claim_C5 "e" none [("width", "5")] [("width", "10")] (by decide)).1, by decide, ?_⟩
  exact ((claim_C5 "e" none [("width", "5")] [("width", "10")] (by decide)).2.2.2.1
    "width").mpr ⟨"5", "10", by decide, by decide, by decide⟩

theorem alookup_map_snd {α β : Type} [DecidableEq α] (l : List (α × β)) (g : α → β → β)
    (k : α) :
    alookup k (l.map fun p => (p.1, g p.1 p.2)) = (alookup k l).map (g k) := by
  induction l with
  | nil => rfl
  | cons p rest ih =>
    by_cases h : p.1 = k
    · subst h
      simp [alookup]
    · simp [alookup, h, ih]

/-! ## Claim C6 -/

/-- C6: for every emote with a non-null (and non-empty, per the data model)
suffix whose base emote (same name, null suffix) exists,
`collapse_specials_properties` replaces the variant's css with a copy of the
base's css updated by the variant's css: properties the variant defines win,
properties it does not define come from the base, and a variant with empty
css ends with exactly the base's properties.  Base emotes are unchanged, and
variants without a base are unchanged. -/
theorem claim_C6 (emotes : List (EmoteKey × PartialEmote)) (name : String) (sfx : String)
    (e : PartialEmote)
    (hkey : alookup (name, some sfx) emotes = some e)
    (hname : e.name = name) (hsuffix : e.suffix = some sfx) (hsfx : sfx ≠ "")
    (hnd : (e.css.map Prod.fst).Nodup) :
    (∀ base : PartialEmote, base.suffix = none →
      alookup (name, none) emotes = some base →
      alookup (name, some sfx) (collapse_specials_properties emotes) =
        some ⟨e.name, e.suffix, dictUpdate base.css e.css⟩ ∧
      alookup (name, none) (collapse_specials_properties emotes) = some base ∧
      (∀ p v, alookup p e.css = some v → alookup p (dictUpdate base.css e.css) = some v) ∧
      (∀ p, alookup p e.css = none →
        alookup p (dictUpdate base.css e.css) = alookup p base.css) ∧
      (e.css = [] → dictUpdate base.css e.css = base.css)) ∧
    (alookup (name, none) emotes = none →
      alookup (name, some sfx) (collapse_specials_properties emotes) = some e) := by
  have htr : suffixTruthy e.suffix = true := by
    rw [hsuffix]
    simp [suffixTruthy, hsfx]
  have hmap : ∀ k : EmoteKey, alookup k (collapse_specials_properties emotes) =
      (alookup k emotes).map (collapseOne emotes) := by
    intro k
    exact alookup_map_snd emotes (fun _ v => collapseOne emotes v) k
  constructor
  · intro base hbs hbase
    have hco : collapseOne emotes e = ⟨e.name, e.suffix, dictUpdate base.css e.css⟩ := by
      rw [collapseOne, if_pos htr, hname, hbase]
    have hcob : collapseOne emotes base = base := by
      rw [collapseOne, if_neg (by rw [hbs]; simp [suffixTruthy])]
    refine ⟨?_, ?_, ?_, ?_, ?_⟩
    · rw [hmap, hkey]
      simp [hco]
    · rw [hmap, hbase]
      simp [hcob]
    · intro p v hv
      rw [alookup_dictUpdate _ _ _ hnd, hv]
      rfl
    · intro p hv
      rw [alookup_dictUpdate _ _ _ hnd, hv]
      rfl
    · intro hcss
      rw [hcss]
      rfl
  · intro hnone
    have hco : collapseOne emotes e = e := by
      rw [collapseOne, if_pos htr, hname, hnone]
    rw [hmap, hkey]
    simp [hco]

/-- C6 (witness): a `:hover` variant defining only `color` collapses against
a base defining `width` and `color`: the collapsed css is the base's css
updated with the variant's, so `width` comes from the base and `color` from
the variant; the base entry is unchanged. -/
theorem claim_C6_witness :
    alookup (("a", some ":hover") : EmoteKey)
      (collapse_specials_properties
        [(("a", none), ⟨"a", none, [("width", "10"), ("color", "red")]⟩),
         (("a", some ":hover"), ⟨"a", some ":hover", [("color", "blue")]⟩)]) =
      some ⟨"a", some ":hover",
        dictUpdate [("width", "10"), ("color", "red")] [("color", "blue")]⟩ ∧
    dictUpdate [("width", "10"), ("color", "red")] [("color", "blue")] =
      [("width", "10"), ("color", "blue")] ∧
    alookup (("a", none) : EmoteKey)
      (collapse_specials_properties
        [(("a", none), ⟨"a", none, [("width", "10"), ("color", "red")]⟩),
         (("a", some ":hover"), ⟨"a", some ":hover", [("color", "blue")]⟩)]) =
      some ⟨"a", none, [("width", "10"), ("color", "red")]⟩ := by
  have h := claim_C6
    [(("a", none), ⟨"a", none, [("width", "10"), ("color", "red")]⟩),
     (("a", some ":hover"), ⟨"a", some ":hover", [("color", "blue")]⟩)]
    "a" ":hover" ⟨"a", some ":hover", [("color", "blue")]⟩
    (by decide) rfl rfl (by decide) (by decide)
  obtain ⟨h1, h2, _, _, _⟩ := h.1 ⟨"a", none, [("width", "10"), ("color", "red")]⟩ rfl (by decide)
  exact ⟨h1, by decide, h2⟩

theorem alookup_filter {α β : Type} [DecidableEq α] (pr : β → Bool) (l : List (α × β))
    (k : α) (hnd : (l.map Prod.fst).Nodup) :
    alookup k (l.filter fun q => pr q.2) =
      (alookup k l).bind fun v => if pr v then some v else none := by
  induction l with
  | nil => rfl
  | cons p rest ih =>
    simp only [List.map_cons, List.nodup_cons] at hnd
    by_cases h : p.1 = k
    · subst h
      have hrest : alookup p.1 rest = none := alookup_eq_none_of_not_mem hnd.1
      by_cases hp : pr p.2
      · simp [List.filter_cons, hp, alookup]
      · have hfr : alookup p.1 (rest.filter fun q => pr q.2) = none := by
          apply alookup_eq_none_of_not_mem
          intro hmem
          apply hnd.1
          obtain ⟨q, hq, hqe⟩ := List.mem_map.mp hmem
          exact List.mem_map.mpr ⟨q, (List.mem_filter.mp hq).1, hqe⟩
        simp [List.filter_cons, hp, hfr, alookup]
    · by_cases hp : pr p.2
      · simp [List.filter_cons, hp, alookup, h, ih hnd.2]
      · simp [List.filter_cons, hp, alookup, h, ih hnd.2]

theorem alookup_filterMap {α β γ : Type} [DecidableEq α] (pr : β → Bool) (g : β → γ)
    (l : List (α × β)) (k : α) (hnd : (l.map Prod.fst).Nodup) :
    alookup k (l.filterMap fun q => if pr q.2 then none else some (q.1, g q.2)) =
      (alookup k l).bind fun v => if pr v then none else some (g v) := by
  induction l with
  | nil => rfl
  | cons p rest ih =>
    simp only [List.map_cons, List.nodup_cons] at hnd
    by_cases h : p.1 = k
    · subst h
      have hrest : alookup p.1 rest = none := alookup_eq_none_of_not_mem hnd.1
      by_cases hp : pr p.2
      · have hfr : alookup p.1
            (rest.filterMap fun q => if pr q.2 then none else some (q.1, g q.2)) = none := by
          apply alookup_eq_none_of_not_mem
          intro hmem
          apply hnd.1
          obtain ⟨q0, hq0, hq0e⟩ := List.mem_map.mp hmem
          obtain ⟨q, hq, hqe⟩ := List.mem_filterMap.mp hq0
          rcases hpq : pr q.2 with _ | _
          · rw [hpq] at hqe
            simp at hqe
            refine List.mem_map.mpr ⟨q, hq, ?_⟩
            rw [← hqe] at hq0e
            simpa using hq0e
          · rw [hpq] at hqe
            simp at hqe
        simp [List.filterMap_cons, hp, hfr, alookup]
      · simp [List.filterMap_cons, hp, alookup]
    · by_cases hp : pr p.2
      · simp [List.filterMap_cons, hp, alookup, h, ih hnd.2]
      · simp [List.filterMap_cons, hp, alookup, h, ih hnd.2]

/-! ## Claim C7 -/

/-- C7: `classify_emotes` partitions the merged emote map: a key present in
the input appears in the normal map iff its css defines all three of
`background-image`, `width` and `height` (`background-position` is not
required), and in the custom map otherwise — never in both; property maps
are passed through unchanged, and absent keys appear in neither map. -/
theorem claim_C7 (m : List (EmoteKey × PartialEmote))
    (hnd : (m.map Prod.fst).Nodup) (key : EmoteKey) :
    (∀ e : PartialEmote, alookup key m = some e →
      (((alookup "background-image" e.css).isSome ∧ (alookup "width" e.css).isSome ∧
          (alookup "height" e.css).isSome) →
        alookup key (classify_emotes m).1 = some e ∧
          alookup key (classify_emotes m).2 = none) ∧
      ((¬ ((alookup "background-image" e.css).isSome ∧ (alookup "width" e.css).isSome ∧
          (alookup "height" e.css).isSome)) →
        alookup key (classify_emotes m).2 = some ⟨e.name, e.suffix, e.css⟩ ∧
          alookup key (classify_emotes m).1 = none)) ∧
    (alookup key m = none →
      alookup key (classify_emotes m).1 = none ∧ alookup key (classify_emotes m).2 = none) := by
  have hn : alookup key (classify_emotes m).1 =
      (alookup key m).bind fun v => if hasNormalProps v then some v else none :=
    alookup_filter hasNormalProps m key hnd
  have hc : alookup key (classify_emotes m).2 =
      (alookup key m).bind fun v => if hasNormalProps v then none else
        some (⟨v.name, v.suffix, v.css⟩ : CustomEmote) :=
    alookup_filterMap hasNormalProps (fun v => (⟨v.name, v.suffix, v.css⟩ : CustomEmote))
      m key hnd
  constructor
  · intro e he
    have hprops : hasNormalProps e = true ↔
        ((alookup "background-image" e.css).isSome ∧ (alookup "width" e.css).isSome ∧
          (alookup "height" e.css).isSome) := by
      simp [hasNormalProps]
      tauto
    constructor
    · intro h
      rw [hn, hc, he]
      simp [hprops.mpr h]
    · intro h
      rw [hn, hc, he]
      have : hasNormalProps e = false := by
        rcases hb : hasNormalProps e with _ | _
        · rfl
        · exact absurd (hprops.mp hb) h
      simp [this]
  · intro he
    rw [hn, hc, he]
    exact ⟨rfl, rfl⟩

/-- C7 (witness): the partition applied to a concrete two-emote map — a
full spritesheet emote without `background-position` goes to the normal map,
a `color`-only emote goes to the custom map. -/
theorem claim_C7_witness :
    alookup (("s", none) : EmoteKey)
      (classify_emotes
        [(("s", none), ⟨"s", none,
            [("background-image", "url(x)"), ("width", "10"), ("height", "10")]⟩),
         (("c", none), ⟨"c", none, [("color", "red")]⟩)]).1 =
      some ⟨"s", none, [("background-image", "url(x)"), ("width", "10"), ("height", "10")]⟩ ∧
    alookup (("c", none) : EmoteKey)
      (classify_emotes
        [(("s", none), ⟨"s", none,
            [("background-image", "url(x)"), ("width", "10"), ("height", "10")]⟩),
         (("c", none), ⟨"c", none, [("color", "red")]⟩)]).2 =
      some ⟨"c", none, [("color", "red")]⟩ ∧
    alookup (("c", none) : EmoteKey)
      (classify_emotes
        [(("s", none), ⟨"s", none,
            [("background-image", "url(x)"), ("width", "10"), ("height", "10")]⟩),
         (("c", none), ⟨"c", none, [("color", "red")]⟩)]).1 = none := by
  have hs := ((claim_C7
    [(("s", none), ⟨"s", none,
        [("background-image", "url(x)"), ("width", "10"), ("height", "10")]⟩),
     (("c", none), ⟨"c", none, [("color", "red")]⟩)] (by decide) ("s", none)).1
    ⟨"s", none, [("background-image", "url(x)"), ("width", "10"), ("height", "10")]⟩
    (by decide)).1 (by decide)
  have hcm := ((claim_C7
    [(("s", none), ⟨"s", none,
        [("background-image", "url(x)"), ("width", "10"), ("height", "10")]⟩),
     (("c", none), ⟨"c", none, [("color", "red")]⟩)] (by decide) ("c", none)).1
    ⟨"c", none, [("color", "red")]⟩ (by decide)).2 (by decide)
  exact ⟨hs.1, hcm.1, hcm.2⟩

/-! ## Claim C8 -/

/-- C8: after validation every emote of a spritesheet has a non-null offset:
emotes that had one keep it, emotes that lacked `background-position` are
defaulted to `(0, 0)`; the error — carrying the sheet's url and the keys of
all affected emotes — is reported iff strictly more than one emote lacked a
position (zero or one lacking emotes report nothing), and it never aborts:
every spritesheet returned by `build_spritesheet_map` has been validated, so
all of its emotes carry an offset. -/
theorem claim_C8 (url : String) (ss : Spritesheet) :
    (∀ q ∈ (_verify_spritesheet url ss).1.emotes, q.2.offset.isSome) ∧
    (∀ (k : EmoteKey) (e : NormalEmote), (k, e) ∈ ss.emotes →
      (k, { e with offset := some (e.offset.getD (0, 0)) }) ∈
        (_verify_spritesheet url ss).1.emotes) ∧
    ((_verify_spritesheet url ss).2.isSome ↔
      1 < (ss.emotes.filter fun p => p.2.offset.isNone).length) ∧
    (∀ u ks, (_verify_spritesheet url ss).2 = some (u, ks) →
      u = url ∧ ks = (ss.emotes.filter fun p => p.2.offset.isNone).map Prod.fst) ∧
    (∀ (uu : CssUtils) (emap : List (EmoteKey × PartialEmote))
        (res : List (String × Spritesheet) × List (EmoteKey × String × String) ×
          List (String × List EmoteKey)),
      build_spritesheet_map uu emap = some res →
      ∀ sp ∈ res.1, ∀ q ∈ sp.2.emotes, q.2.offset.isSome) := by
  have hall : ∀ (u' : String) (ss' : Spritesheet),
      ∀ q ∈ (_verify_spritesheet u' ss').1.emotes, q.2.offset.isSome = true := by
    intro u' ss' q hq
    rw [_verify_spritesheet] at hq
    dsimp only at hq
    obtain ⟨p, _, rfl⟩ := List.mem_map.mp hq
    simp
  refine ⟨hall url ss, ?_, ?_, ?_, ?_⟩
  · intro k e hmem
    rw [_verify_spritesheet]
    dsimp only
    exact List.mem_map.mpr ⟨(k, e), hmem, rfl⟩
  · rw [_verify_spritesheet]
    dsimp only
    by_cases hlen : 1 < ((ss.emotes.filter fun p => p.2.offset.isNone).map Prod.fst).length
    · rw [if_pos hlen]
      rw [List.length_map] at hlen
      simpa using hlen
    · rw [if_neg hlen]
      rw [List.length_map] at hlen
      simpa using hlen
  · intro u ks h
    rw [_verify_spritesheet] at h
    dsimp only at h
    split at h
    · have hp := Option.some.inj h
      exact ⟨(congrArg Prod.fst hp).symm, (congrArg Prod.snd hp).symm⟩
    · simp at h
  · intro uu emap res hb
    rw [build_spritesheet_map, Option.map_eq_some'] at hb
    obtain ⟨sw, _, hres⟩ := hb
    intro sp hsp q hq
    rw [← hres] at hsp
    dsimp only at hsp
    obtain ⟨p2, hp2, rfl⟩ := List.mem_map.mp hsp
    obtain ⟨p3, _, rfl⟩ := List.mem_map.mp hp2
    exact hall p3.1 p3.2 q hq

/-- C8 (witness): a sheet with two emotes both lacking a position reports an
error naming the sheet and both keys, and both emotes end with offset
`(0, 0)`. -/
theorem claim_C8_witness :
    ((_verify_spritesheet "s.png" ⟨"s.png",
        [(("a", none), ⟨"a", none, [], "s.png", (10, 10), none⟩),
         (("b", none), ⟨"b", none, [], "s.png", (10, 10), none⟩)]⟩).2 =
      some ("s.png", [("a", none), ("b", none)])) ∧
    ("s.png" = "s.png" ∧ ([(("a", none) : EmoteKey), ("b", none)]) =
      (((⟨"s.png",
        [(("a", none), ⟨"a", none, [], "s.png", (10, 10), none⟩),
         (("b", none), ⟨"b", none, [], "s.png", (10, 10), none⟩)]⟩ : Spritesheet)).emotes.filter
          fun p => p.2.offset.isNone).map Prod.fst) ∧
    (∀ q ∈ (_verify_spritesheet "s.png" ⟨"s.png",
        [(("a", none), ⟨"a", none, [], "s.png", (10, 10), none⟩),
         (("b", none), ⟨"b", none, [], "s.png", (10, 10), none⟩)]⟩).1.emotes,
      q.2.offset = some (0, 0)) := by
  refine ⟨by decide, ?_, by decide⟩
  exact (claim_C8 "s.png" ⟨"s.png",
    [(("a", none), ⟨"a", none, [], "s.png", (10, 10), none⟩),
     (("b", none), ⟨"b", none, [], "s.png", (10, 10), none⟩)]⟩).2.2.2.1
    "s.png" [("a", none), ("b", none)] (by decide)

/-! ## Claim C9 -/

/-- C9 (counterexample): the claim says the pipeline yields the normal emote
`("smile", null)`; in fact the emote name captured by the selector regex
retains the leading slash, so the single emote of spritesheet `s.png` is
keyed `("/smile", null)` and no `("smile", null)` key exists. -/
theorem claim_C9_counterexample :
    process_stylesheet (⟨fun _ => "s.png", fun _ => 10, fun _ _ _ => (0, 0)⟩ : CssUtils)
      ⟨[]⟩ [⟨["a[href|=\"/smile\"]"],
        [("background-image", "url(s.png)"), ("width", "10px"), ("height", "10px"),
         ("background-position", "0px 0px")]⟩] =
      some ⟨[], [], [], [],
        [("s.png", ⟨"s.png", [(("/smile", none),
          ⟨"/smile", none, [], "s.png", (10, 10), some (0, 0)⟩)]⟩)],
        [], [], []⟩ ∧
    (("/smile", (none : Option String)) ≠ ("smile", none)) ∧
    alookup (("smile", none) : EmoteKey)
      [((("/smile", none) : EmoteKey),
        (⟨"/smile", none, [], "s.png", (10, 10), some (0, 0)⟩ : NormalEmote))] = none := by
  refine ⟨by decide, by decide, by decide⟩

/-- C9 (amended): on the single rule `a[href|="/smile"]` with the four
spritesheet properties, an empty explicit-request set, and external css
utilities resolving `url(s.png)` to `s.png`, `10px` to `10` and
`0px 0px` (in a 10×10 box) to `(0, 0)`, the pipeline yields exactly one
spritesheet keyed `s.png` containing the single normal emote
`("/smile", null)` — the name keeps its leading slash — with size `(10, 10)`,
offset `(0, 0)` and no residual css, an empty custom-emote map, and no
warnings, notices or errors of any kind. -/
theorem claim_C9_amended (u : CssUtils)
    (hurl : u.as_url "url(s.png)" = "s.png")
    (hsize : u.as_size "10px" = 10)
    (hpos : u.as_position "0px 0px" 10 10 = (0, 0)) :
    process_stylesheet u ⟨[]⟩ [⟨["a[href|=\"/smile\"]"],
        [("background-image", "url(s.png)"), ("width", "10px"), ("height", "10px"),
         ("background-position", "0px 0px")]⟩] =
      some ⟨[], [], [], [],
        [("s.png", ⟨"s.png", [(("/smile", none),
          ⟨"/smile", none, [], "s.png", (10, 10), some (0, 0)⟩)]⟩)],
        [], [], []⟩ := by
  have h : process_stylesheet u ⟨[]⟩ [⟨["a[href|=\"/smile\"]"],
        [("background-image", "url(s.png)"), ("width", "10px"), ("height", "10px"),
         ("background-position", "0px 0px")]⟩] =
      some ⟨[], [], [], [],
        [(u.as_url "url(s.png)", ⟨u.as_url "url(s.png)",
          [(("/smile", none), ⟨"/smile", none, [], u.as_url "url(s.png)",
            (u.as_size "10px", u.as_size "10px"),
            some (u.as_position "0px 0px" (u.as_size "10px") (u.as_size "10px"))⟩)]⟩)],
        [], [], []⟩ := rfl
  rw [h, hurl, hsize, hpos]

/-- C9 (witness): the amended claim applied to concrete css utilities that
satisfy the three assumptions. -/
theorem claim_C9_witness :
    process_stylesheet (⟨fun _ => "s.png", fun _ => 10, fun _ _ _ => (0, 0)⟩ : CssUtils)
      ⟨[]⟩ [⟨["a[href|=\"/smile\"]"],
        [("background-image", "url(s.png)"), ("width", "10px"), ("height", "10px"),
         ("background-position", "0px 0px")]⟩] =
      some ⟨[], [], [], [],
        [("s.png", ⟨"s.png", [(("/smile", none),
          ⟨"/smile", none, [], "s.png", (10, 10), some (0, 0)⟩)]⟩)],
        [], [], []⟩ :=
  claim_C9_amended ⟨fun _ => "s.png", fun _ => 10, fun _ _ _ => (0, 0)⟩ rfl rfl rfl
